import Mathlib

/-!
User aggregate, volatile repository and user service

A shallow embedding of `internal/domain/user.go`,
`internal/infrastructure/repository/memory_user_repository.go` and
`internal/application/service/user_service.go`.

Modelling conventions.

* A Go `string` is modelled by the sequence of its Unicode code points
  (`GoString = List Char`); the strings handled here are UTF-8 text, as produced
  by the JSON decoder in front of the service.  Go's `len` is the number of
  UTF-8 bytes of the string and is modelled by `len`.
* `strings.TrimSpace`, `strings.ToLower` and `regexp.MatchString` belong to the
  Go standard library.  `TrimSpace` and the matcher are modelled in full.
  `ToLower` is modelled in full on ASCII; above ASCII it applies the rune table
  `unicode.ToLower`, which is a parameter of the development (`CaseTable`).
* A Go result `(x, err)` of which exactly one component is set is an `Except`;
  a method that mutates its receiver and returns an `error` returns the pair of
  the error (`none` for `nil`) and the receiver after the call.
* `uuid.New()` is not deterministic: the identifier it yields is a parameter
  (`newID`) of `NewUser` and of `UserService.CreateUser`.
-/

namespace UserSvc

/-! ## Go strings -/

/-- A Go string holding UTF-8 text, as the sequence of its code points. -/
abbrev GoString := List Char

/-- Number of bytes of the UTF-8 encoding of one code point (`utf8.RuneLen`). -/
def utf8RuneLen (c : Char) : Nat :=
  if c.toNat < 0x80 then 1
  else if c.toNat < 0x800 then 2
  else if c.toNat < 0x10000 then 3
  else 4

/-- Go's builtin `len` on a string: its length in bytes. -/
def len (s : GoString) : Nat := (s.map utf8RuneLen).sum

/-- Number of code points of a string (`utf8.RuneCountInString`). -/
def runeCount (s : GoString) : Nat := s.length

/-- The rune predicate `unicode.IsSpace`: the six ASCII blanks, U+0085, U+00A0 and the
code points with the Unicode White_Space property. -/
def unicodeIsSpace (c : Char) : Bool :=
  let n := c.toNat
  n == 0x09 || n == 0x0A || n == 0x0B || n == 0x0C || n == 0x0D || n == 0x20 ||
  n == 0x85 || n == 0xA0 || n == 0x1680 || (0x2000 ≤ n && n ≤ 0x200A) ||
  n == 0x2028 || n == 0x2029 || n == 0x202F || n == 0x205F || n == 0x3000

/-- The function `strings.TrimSpace`: leading, then trailing white space is removed. -/
def TrimSpace (s : GoString) : GoString :=
  (s.dropWhile unicodeIsSpace).rdropWhile unicodeIsSpace

/-- The ASCII branch of `unicode.ToLower`: the letters A to Z are moved down by 32. -/
def asciiToLower (c : Char) : Char :=
  if 0x41 ≤ c.toNat ∧ c.toNat ≤ 0x5A then Char.ofNat (c.toNat + 32) else c

/-- The rune map `unicode.ToLower`, over a table `tbl` for the runes above ASCII. -/
def unicodeToLower (tbl : Char → Char) (c : Char) : Char :=
  if c.toNat < 0x80 then asciiToLower c else tbl c

/-- The lower-case table of the Go `unicode` package for the runes above ASCII
(`unicode.CaseRanges`), with the two facts about it that the development uses:
lowering a rune twice is lowering it once, and no rune becomes white space. -/
structure CaseTable where
  /-- The lower-case image of a rune above ASCII. -/
  lower : Char → Char
  /-- The lower-case image of a rune is its own lower-case image. -/
  lower_idem : ∀ c, unicodeToLower lower (unicodeToLower lower c) = unicodeToLower lower c
  /-- The lower-case image of a rune that is not white space is not white space. -/
  lower_space : ∀ c, unicodeIsSpace c = false → unicodeIsSpace (unicodeToLower lower c) = false

/-- The function `strings.ToLower`: every rune is replaced by its lower-case image. -/
def ToLower (T : CaseTable) (s : GoString) : GoString :=
  s.map (unicodeToLower T.lower)

/-- The table entries used for concrete runs, an excerpt of `unicode.CaseRanges`:
U+0130 (capital I with dot above) is lowered to U+0069 `i` and U+212A (Kelvin sign) to
U+006B `k`; the other runes above ASCII are left as they are. -/
def excerptLower (c : Char) : Char :=
  if c.toNat = 0x212A then 'k' else if c.toNat = 0x130 then 'i' else c

/-- The case table of the concrete runs. -/
def excerptCaseTable : CaseTable where
  lower := excerptLower
  lower_idem := by
    have ascii : ∀ n : Fin 128, unicodeToLower excerptLower
        (unicodeToLower excerptLower (Char.ofNat n)) =
        unicodeToLower excerptLower (Char.ofNat n) := by decide
    intro c
    by_cases hc : c.toNat < 0x80
    · have h := ascii ⟨c.toNat, hc⟩
      simpa [Char.ofNat_toNat] using h
    · simp only [unicodeToLower, hc, if_false, excerptLower]
      split
      · decide
      · split
        · decide
        · simp [hc]
  lower_space := by
    have ascii : ∀ n : Fin 128, unicodeIsSpace (Char.ofNat n) = false →
        unicodeIsSpace (unicodeToLower excerptLower (Char.ofNat n)) = false := by decide
    intro c hs
    by_cases hc : c.toNat < 0x80
    · have h := ascii ⟨c.toNat, hc⟩
      simp only [Char.ofNat_toNat] at h
      exact h hs
    · simp only [unicodeToLower, hc, if_false, excerptLower]
      split
      · decide
      · split
        · decide
        · exact hs

/-! ## Regular expressions (`regexp`) -/

/-- Abstract syntax of the regular expressions used by the program. -/
inductive Regex where
  /-- Matches no text. -/
  | fail : Regex
  /-- Matches the empty text. -/
  | eps : Regex
  /-- A character class, given by its membership test. -/
  | cls : (Char → Bool) → Regex
  /-- Concatenation. -/
  | cat : Regex → Regex → Regex
  /-- Alternation. -/
  | alt : Regex → Regex → Regex
  /-- Repetition, zero or more times. -/
  | star : Regex → Regex

namespace Regex

/-- Whether the expression matches the empty text. -/
def nullable : Regex → Bool
  | fail => false
  | eps => true
  | cls _ => false
  | cat a b => nullable a && nullable b
  | alt a b => nullable a || nullable b
  | star _ => true

/-- The expression matching the rest of a text after the rune `c` has been read. -/
def deriv : Regex → Char → Regex
  | fail, _ => fail
  | eps, _ => fail
  | cls p, c => if p c then eps else fail
  | cat a b, c =>
      if nullable a then alt (cat (deriv a c) b) (deriv b c) else cat (deriv a c) b
  | alt a b, c => alt (deriv a c) (deriv b c)
  | star a, c => cat (deriv a c) (star a)

/-- Whole-text match: the text is read rune by rune. -/
def fullMatch : Regex → GoString → Bool
  | r, [] => nullable r
  | r, c :: s => fullMatch (deriv r c) s

/-- The operator `+`: one or more times. -/
def plus (r : Regex) : Regex := cat r (star r)

/-- The operator `{2,}`: two or more times. -/
def atLeastTwo (r : Regex) : Regex := cat r (cat r (star r))

/-- A single literal rune. -/
def lit (c : Char) : Regex := cls (fun x => x == c)

end Regex

/-- The texts denoted by a regular expression. -/
inductive Regex.Matches : Regex → GoString → Prop
  | eps : Regex.Matches Regex.eps []
  | cls {p : Char → Bool} {c : Char} : p c = true → Regex.Matches (Regex.cls p) [c]
  | cat {a b : Regex} {x y : GoString} :
      Regex.Matches a x → Regex.Matches b y → Regex.Matches (Regex.cat a b) (x ++ y)
  | altL {a b : Regex} {x : GoString} : Regex.Matches a x → Regex.Matches (Regex.alt a b) x
  | altR {a b : Regex} {x : GoString} : Regex.Matches b x → Regex.Matches (Regex.alt a b) x
  | starNil {a : Regex} : Regex.Matches (Regex.star a) []
  | starCons {a : Regex} {x y : GoString} :
      Regex.Matches a x → Regex.Matches (Regex.star a) y →
      Regex.Matches (Regex.star a) (x ++ y)

/-- ASCII letter, `[a-zA-Z]`. -/
def isAsciiLetter (c : Char) : Bool :=
  (0x61 ≤ c.toNat && c.toNat ≤ 0x7A) || (0x41 ≤ c.toNat && c.toNat ≤ 0x5A)

/-- ASCII digit, `[0-9]`. -/
def isAsciiDigit (c : Char) : Bool := 0x30 ≤ c.toNat && c.toNat ≤ 0x39

/-- The class `[a-zA-Z0-9._%+-]` of the local part. -/
def localClass (c : Char) : Bool :=
  isAsciiLetter c || isAsciiDigit c || c == '.' || c == '_' || c == '%' || c == '+' || c == '-'

/-- The class `[a-zA-Z0-9.-]` of the domain. -/
def domainClass (c : Char) : Bool :=
  isAsciiLetter c || isAsciiDigit c || c == '.' || c == '-'

/-- The pattern `^[a-zA-Z0-9._%+-]+@[a-zA-Z0-9.-]+\.[a-zA-Z]{2,}$` of `validateEmail`.
The pattern is anchored at both ends (no multi-line flag), so `MatchString` is a
whole-text match of the expression between the anchors. -/
def emailRegex : Regex :=
  Regex.cat (Regex.plus (Regex.cls localClass))
    (Regex.cat (Regex.lit '@')
      (Regex.cat (Regex.plus (Regex.cls domainClass))
        (Regex.cat (Regex.lit '.') (Regex.atLeastTwo (Regex.cls isAsciiLetter)))))

/-- The runes of the local part in the address grammar: ASCII letters, digits and
`._%+-`. -/
def grammarLocalRunes : GoString :=
  "abcdefghijklmnopqrstuvwxyzABCDEFGHIJKLMNOPQRSTUVWXYZ0123456789._%+-".toList

/-- The runes of the domain in the address grammar: ASCII letters, digits and `.-`. -/
def grammarDomainRunes : GoString :=
  "abcdefghijklmnopqrstuvwxyzABCDEFGHIJKLMNOPQRSTUVWXYZ0123456789.-".toList

/-- The ASCII letters. -/
def grammarLetters : GoString :=
  "abcdefghijklmnopqrstuvwxyzABCDEFGHIJKLMNOPQRSTUVWXYZ".toList

/-- The address grammar `L@D.T`: a non-empty local part `L`, a non-empty domain `D` and a
top-level segment `T` of at least two ASCII letters. -/
def AddressGrammar (s : GoString) : Prop :=
  ∃ L D Tl : GoString, s = L ++ ['@'] ++ D ++ ['.'] ++ Tl ∧
    L ≠ [] ∧ (∀ c ∈ L, c ∈ grammarLocalRunes) ∧
    D ≠ [] ∧ (∀ c ∈ D, c ∈ grammarDomainRunes) ∧
    2 ≤ Tl.length ∧ (∀ c ∈ Tl, c ∈ grammarLetters)

/-! ## Domain: `internal/domain/user.go` -/

/-- The type `UserID` is a Go string. -/
abbrev UserID := GoString

/-- The aggregate `User`. -/
structure User where
  ID : UserID
  Name : GoString
  Email : GoString
  Username : GoString
  deriving DecidableEq, Repr

/-- The error values declared by the domain package. -/
inductive Error where
  | ErrInvalidName
  | ErrInvalidEmail
  | ErrInvalidUsername
  | ErrUserNotFound
  | ErrEmailExists
  | ErrUsernameExists
  deriving DecidableEq, Repr

open Error

deriving instance DecidableEq for Except

/-- Source: `validateName`; `none` is Go's `nil`. -/
def validateName (name : GoString) : Option Error :=
  if TrimSpace name = [] then some ErrInvalidName else none

/-- Source: `validateEmail`. -/
def validateEmail (email : GoString) : Option Error :=
  let email := TrimSpace email
  if email = [] then some ErrInvalidEmail
  else if !(emailRegex.fullMatch email) then some ErrInvalidEmail
  else none

/-- Source: `validateUsername`. -/
def validateUsername (username : GoString) : Option Error :=
  let username := TrimSpace username
  if len username < 3 then some ErrInvalidUsername else none

/-- Source: `NewUser`; `newID` is the value of `NewUserID()`. -/
def NewUser (T : CaseTable) (newID : UserID) (name email username : GoString) :
    Except Error User :=
  match validateName name with
  | some err => .error err
  | none =>
    match validateEmail email with
    | some err => .error err
    | none =>
      match validateUsername username with
      | some err => .error err
      | none =>
        .ok { ID := newID
              Name := TrimSpace name
              Email := ToLower T (TrimSpace email)
              Username := ToLower T (TrimSpace username) }

/-- Source: `(*User).UpdateName`; the second component is the receiver after the call. -/
def User.UpdateName (u : User) (name : GoString) : Option Error × User :=
  match validateName name with
  | some err => (some err, u)
  | none => (none, { u with Name := TrimSpace name })

/-- Source: `(*User).UpdateEmail`. -/
def User.UpdateEmail (T : CaseTable) (u : User) (email : GoString) : Option Error × User :=
  match validateEmail email with
  | some err => (some err, u)
  | none => (none, { u with Email := ToLower T (TrimSpace email) })

/-- Source: `(*User).UpdateUsername`. -/
def User.UpdateUsername (T : CaseTable) (u : User) (username : GoString) :
    Option Error × User :=
  match validateUsername username with
  | some err => (some err, u)
  | none => (none, { u with Username := ToLower T (TrimSpace username) })

/-! ## Volatile repository: `memory_user_repository.go` -/

/-- A Go `map[domain.UserID]*domain.User`, as the list of its entries; each key
occurs once in a map built by `store` from the empty map. -/
abbrev UserMap := List (UserID × User)

/-- The map read `m[id]` with its presence flag. -/
def UserMap.lookup : UserMap → UserID → Option User
  | [], _ => none
  | (k, v) :: m, id => if k = id then some v else UserMap.lookup m id

/-- The map write `m[id] = u`: the entry under `id` is replaced, or added. -/
def UserMap.store : UserMap → UserID → User → UserMap
  | [], id, u => [(id, u)]
  | (k, v) :: m, id, u => if k = id then (id, u) :: m else (k, v) :: UserMap.store m id u

/-- The builtin `delete(m, id)`. -/
def UserMap.remove : UserMap → UserID → UserMap
  | [], _ => []
  | (k, v) :: m, id => if k = id then m else (k, v) :: UserMap.remove m id

/-- The repository state: the field `users` (the lock guards it and holds no data). -/
structure MemoryUserRepository where
  users : UserMap
  deriving DecidableEq, Repr

/-- Source: `NewMemoryUserRepository`. -/
def NewMemoryUserRepository : MemoryUserRepository := { users := [] }

namespace MemoryUserRepository

/-- Source: `Save`. -/
def Save (r : MemoryUserRepository) (user : User) : Option Error × MemoryUserRepository :=
  (none, { users := r.users.store user.ID user })

/-- Source: `GetByID`; the result is a copy of the stored value. -/
def GetByID (r : MemoryUserRepository) (id : UserID) : Except Error User :=
  match r.users.lookup id with
  | none => .error ErrUserNotFound
  | some user => .ok user

/-- Source: `GetByEmail`; the entries are visited in the order of the list. -/
def GetByEmail (T : CaseTable) (r : MemoryUserRepository) (email : GoString) :
    Except Error User :=
  let email := ToLower T (TrimSpace email)
  match r.users.find? (fun e => e.2.Email = email) with
  | some e => .ok e.2
  | none => .error ErrUserNotFound

/-- Source: `GetByUsername`. -/
def GetByUsername (T : CaseTable) (r : MemoryUserRepository) (username : GoString) :
    Except Error User :=
  let username := ToLower T (TrimSpace username)
  match r.users.find? (fun e => e.2.Username = username) with
  | some e => .ok e.2
  | none => .error ErrUserNotFound

/-- Source: `GetAll`. -/
def GetAll (r : MemoryUserRepository) : Except Error (List User) :=
  .ok (r.users.map (fun e => e.2))

/-- Source: `Update`. -/
def Update (r : MemoryUserRepository) (user : User) : Option Error × MemoryUserRepository :=
  match r.users.lookup user.ID with
  | none => (some ErrUserNotFound, r)
  | some _ => (none, { users := r.users.store user.ID user })

/-- Source: `Delete`. -/
def Delete (r : MemoryUserRepository) (id : UserID) : Option Error × MemoryUserRepository :=
  match r.users.lookup id with
  | none => (some ErrUserNotFound, r)
  | some _ => (none, { users := r.users.remove id })

/-- Source: `ExistsByEmail`. -/
def ExistsByEmail (T : CaseTable) (r : MemoryUserRepository) (email : GoString) :
    Except Error Bool :=
  let email := ToLower T (TrimSpace email)
  .ok (r.users.any (fun e => e.2.Email = email))

/-- Source: `ExistsByUsername`. -/
def ExistsByUsername (T : CaseTable) (r : MemoryUserRepository) (username : GoString) :
    Except Error Bool :=
  let username := ToLower T (TrimSpace username)
  .ok (r.users.any (fun e => e.2.Username = username))

end MemoryUserRepository

/-! ## Application service: `user_service.go`, over the volatile repository -/

/-- Source: `dto.CreateUserRequest`. -/
structure CreateUserRequest where
  Name : GoString
  Email : GoString
  Username : GoString
  deriving DecidableEq, Repr

/-- Source: `dto.UpdateUserRequest`; `none` is the `nil` pointer. -/
structure UpdateUserRequest where
  Name : Option GoString
  Email : Option GoString
  Username : Option GoString
  deriving DecidableEq, Repr

/-- Source: `dto.UserResponse`. -/
structure UserResponse where
  ID : GoString
  Name : GoString
  Email : GoString
  Username : GoString
  deriving DecidableEq, Repr

namespace UserService

/-- Source: `userToResponse`. -/
def userToResponse (user : User) : UserResponse :=
  { ID := user.ID, Name := user.Name, Email := user.Email, Username := user.Username }

/-- Source: `CreateUser`; the result and the repository after the call. -/
def CreateUser (T : CaseTable) (r : MemoryUserRepository) (newID : UserID)
    (req : CreateUserRequest) : Except Error UserResponse × MemoryUserRepository :=
  match r.ExistsByEmail T req.Email with
  | .error err => (.error err, r)
  | .ok emailExists =>
    if emailExists then (.error ErrEmailExists, r)
    else
      match r.ExistsByUsername T req.Username with
      | .error err => (.error err, r)
      | .ok usernameExists =>
        if usernameExists then (.error ErrUsernameExists, r)
        else
          match NewUser T newID req.Name req.Email req.Username with
          | .error err => (.error err, r)
          | .ok user =>
            match r.Save user with
            | (some err, r1) => (.error err, r1)
            | (none, r1) => (.ok (userToResponse user), r1)

/-- Source: `GetUserByID`. -/
def GetUserByID (r : MemoryUserRepository) (id : GoString) : Except Error UserResponse :=
  match r.GetByID id with
  | .error err => .error err
  | .ok user => .ok (userToResponse user)

/-- Source: `GetAllUsers`. -/
def GetAllUsers (r : MemoryUserRepository) : Except Error (List UserResponse) :=
  match r.GetAll with
  | .error err => .error err
  | .ok users => .ok (users.map userToResponse)

/-- Source: `UpdateUser`, the block `if req.Name != nil`, on the fetched copy. -/
def applyName (req : UpdateUserRequest) (user : User) : Except Error User :=
  match req.Name with
  | none => .ok user
  | some name =>
    match user.UpdateName name with
    | (some err, _) => .error err
    | (none, user) => .ok user

/-- Source: `UpdateUser`, the block `if req.Email != nil`. -/
def applyEmail (T : CaseTable) (r : MemoryUserRepository) (req : UpdateUserRequest)
    (user : User) : Except Error User :=
  match req.Email with
  | none => .ok user
  | some email =>
    match r.ExistsByEmail T email with
    | .error err => .error err
    | .ok emailExists =>
      if emailExists && user.Email != email then .error ErrEmailExists
      else
        match user.UpdateEmail T email with
        | (some err, _) => .error err
        | (none, user) => .ok user

/-- Source: `UpdateUser`, the block `if req.Username != nil`. -/
def applyUsername (T : CaseTable) (r : MemoryUserRepository) (req : UpdateUserRequest)
    (user : User) : Except Error User :=
  match req.Username with
  | none => .ok user
  | some username =>
    match r.ExistsByUsername T username with
    | .error err => .error err
    | .ok usernameExists =>
      if usernameExists && user.Username != username then .error ErrUsernameExists
      else
        match user.UpdateUsername T username with
        | (some err, _) => .error err
        | (none, user) => .ok user

/-- Source: `UpdateUser`; the three blocks run in the order name, email, username on
the copy returned by `GetByID`, and the copy is written back by `Update`. -/
def UpdateUser (T : CaseTable) (r : MemoryUserRepository) (id : GoString)
    (req : UpdateUserRequest) : Except Error UserResponse × MemoryUserRepository :=
  match r.GetByID id with
  | .error err => (.error err, r)
  | .ok user =>
    match applyName req user with
    | .error err => (.error err, r)
    | .ok user =>
      match applyEmail T r req user with
      | .error err => (.error err, r)
      | .ok user =>
        match applyUsername T r req user with
        | .error err => (.error err, r)
        | .ok user =>
          match r.Update user with
          | (some err, r1) => (.error err, r1)
          | (none, r1) => (.ok (userToResponse user), r1)

/-- Source: `DeleteUser`. -/
def DeleteUser (r : MemoryUserRepository) (id : GoString) :
    Option Error × MemoryUserRepository :=
  match r.GetByID id with
  | .error err => (some err, r)
  | .ok _ => r.Delete id

end UserService

/-! ## Persistent repository: `mongodb_user_repository.go`, result classification

The MongoDB driver is outside the repository; what it reports for a call is an input of the
functions below. -/

/-- The unique indexes of the collection `users`: the primary key `_id` and the two indexes
created by `NewMongoUserRepository`. -/
inductive UniqueIndex where
  | primaryKey
  | email
  | username
  deriving DecidableEq, Repr

/-- An error reported by the driver: a write that violates a unique index, or any other
failure, with its message. -/
inductive DriverError where
  | duplicateKey (index : UniqueIndex)
  | other (message : GoString)
  deriving DecidableEq, Repr

/-- The driver predicate `mongo.IsDuplicateKeyError`. -/
def IsDuplicateKeyError : DriverError → Bool
  | .duplicateKey _ => true
  | .other _ => false

/-- The driver type `mongo.UpdateResult`; the counts are not negative. -/
structure UpdateResult where
  MatchedCount : Nat
  ModifiedCount : Nat
  deriving DecidableEq, Repr

/-- The driver type `mongo.DeleteResult`. -/
structure DeleteResult where
  DeletedCount : Nat
  deriving DecidableEq, Repr

/-- An error value returned by the persistent repository: one of the domain errors, or a
driver error wrapped by `fmt.Errorf("<context>: %w", err)`. -/
inductive RepoError where
  | domain (err : Error)
  | wrapped (context : GoString) (cause : DriverError)
  deriving DecidableEq, Repr

namespace MongoUserRepository

/-- Source: `Save`; `insertErr` is the error returned by `InsertOne` for the document of
`user` (`none` for `nil`). -/
def Save (_user : User) (insertErr : Option DriverError) : Option RepoError :=
  match insertErr with
  | some err =>
    if IsDuplicateKeyError err then some (.domain ErrEmailExists)
    else some (.wrapped "failed to save user".toList err)
  | none => none

/-- Source: `Update`; `outcome` is what `UpdateOne` returns for the filter `_id = user.ID`. -/
def Update (_user : User) (outcome : Except DriverError UpdateResult) : Option RepoError :=
  match outcome with
  | .error err =>
    if IsDuplicateKeyError err then some (.domain ErrEmailExists)
    else some (.wrapped "failed to update user".toList err)
  | .ok result =>
    if result.MatchedCount = 0 then some (.domain ErrUserNotFound) else none

/-- Source: `Delete`; `outcome` is what `DeleteOne` returns for the filter `_id = id`. -/
def Delete (_id : UserID) (outcome : Except DriverError DeleteResult) : Option RepoError :=
  match outcome with
  | .error err => some (.wrapped "failed to delete user".toList err)
  | .ok result =>
    if result.DeletedCount = 0 then some (.domain ErrUserNotFound) else none

end MongoUserRepository

/-! ## Persistent repository: existence checks

The collection is the list of its documents; `CountDocuments` with an equality filter on
one field is the number of documents whose field equals the given value exactly. -/

/-- Source: `mongoUser`, the document stored for a user. -/
structure mongoUser where
  ID : GoString
  Name : GoString
  Email : GoString
  Username : GoString
  deriving DecidableEq, Repr

/-- The driver call `CountDocuments(ctx, filter)`: the number of documents of the
collection that pass the filter. -/
def CountDocuments (collection : List mongoUser) (filter : mongoUser → Bool) : Nat :=
  collection.countP filter

namespace MongoUserRepository

/-- Source: the document built by `Save` from a user. -/
def document (user : User) : mongoUser :=
  { ID := user.ID, Name := user.Name, Email := user.Email, Username := user.Username }

/-- Source: `mongoUserToDomain`. -/
def mongoUserToDomain (doc : mongoUser) : User :=
  { ID := doc.ID, Name := doc.Name, Email := doc.Email, Username := doc.Username }

/-- Source: `ExistsByEmail`, with the filter `bson.M("email": email)`; `countErr` is the
error reported by `CountDocuments` (`none` for `nil`). -/
def ExistsByEmail (collection : List mongoUser) (email : GoString)
    (countErr : Option DriverError) : Except RepoError Bool :=
  match countErr with
  | some err => .error (.wrapped "failed to check email existence".toList err)
  | none => .ok (decide (CountDocuments collection (fun doc => doc.Email = email) > 0))

/-- Source: `ExistsByUsername`, with the filter `bson.M("username": username)`. -/
def ExistsByUsername (collection : List mongoUser) (username : GoString)
    (countErr : Option DriverError) : Except RepoError Bool :=
  match countErr with
  | some err => .error (.wrapped "failed to check username existence".toList err)
  | none => .ok (decide (CountDocuments collection (fun doc => doc.Username = username) > 0))

end MongoUserRepository

/-- The collection that holds the population of a volatile repository: one document per
stored user. -/
def documentsOf (r : MemoryUserRepository) : List mongoUser :=
  r.users.map (fun e => MongoUserRepository.document e.2)

/-! ## Sequential runs of the service -/

/-- One call of the service that can change the repository. -/
inductive Call where
  /-- The call `CreateUser(req)`, in which `NewUserID()` yields `newID`. -/
  | create (newID : UserID) (req : CreateUserRequest)
  /-- The call `UpdateUser(id, req)`. -/
  | update (id : GoString) (req : UpdateUserRequest)
  /-- The call `DeleteUser(id)`. -/
  | delete (id : GoString)
  deriving DecidableEq, Repr

/-- The repository after one call. -/
def step (T : CaseTable) (r : MemoryUserRepository) : Call → MemoryUserRepository
  | .create newID req => (UserService.CreateUser T r newID req).2
  | .update id req => (UserService.UpdateUser T r id req).2
  | .delete id => (UserService.DeleteUser r id).2

/-- The repository after a sequence of calls, one after the other. -/
def run (T : CaseTable) (r : MemoryUserRepository) (calls : List Call) :
    MemoryUserRepository :=
  calls.foldl (step T) r

/-- The identifiers generated during a sequence of calls, in order. -/
def generatedIDs : List Call → List UserID
  | [] => []
  | .create newID _ :: cs => newID :: generatedIDs cs
  | _ :: cs => generatedIDs cs

/-- The store states reachable from the empty repository by calls of the service
in which every generated identifier is new. -/
def Reachable (T : CaseTable) (r : MemoryUserRepository) : Prop :=
  ∃ calls : List Call, (generatedIDs calls).Nodup ∧ run T NewMemoryUserRepository calls = r

/-- No two stored users with different IDs share an Email or a Username. -/
def UniqueEmailUsername (r : MemoryUserRepository) : Prop :=
  ∀ e1 ∈ r.users, ∀ e2 ∈ r.users, e1.2.ID ≠ e2.2.ID →
    e1.2.Email ≠ e2.2.Email ∧ e1.2.Username ≠ e2.2.Username

/-- The normal form in which emails and usernames are stored and looked up. -/
def normalize (T : CaseTable) (s : GoString) : GoString := ToLower T (TrimSpace s)

/-- A text with no white space at either end. -/
def Trimmed (s : GoString) : Prop :=
  (∀ c, s.head? = some c → unicodeIsSpace c = false) ∧
  (∀ c, s.getLast? = some c → unicodeIsSpace c = false)

/-- The invariant of the reachable store states: every entry is filed under the ID of its
user, stored emails and usernames are in normal form, stored emails are valid, and
entries under different keys differ in Email and in Username. -/
def StoreInv (T : CaseTable) (r : MemoryUserRepository) : Prop :=
  (∀ e ∈ r.users, e.1 = e.2.ID) ∧
  (∀ e ∈ r.users, normalize T e.2.Email = e.2.Email ∧
    normalize T e.2.Username = e.2.Username ∧ validateEmail e.2.Email = none) ∧
  (∀ e1 ∈ r.users, ∀ e2 ∈ r.users, e1.1 ≠ e2.1 →
    e1.2.Email ≠ e2.2.Email ∧ e1.2.Username ≠ e2.2.Username)

/-- The keys of a map, in the order of its entries. -/
def UserMap.keys (m : UserMap) : List UserID := m.map Prod.fst

/-- The representation invariant of the repository state: the list of entries is a Go
map, each key occurring once, and every entry is filed under the ID of its user, as the
writes `r.users[user.ID] = user` of `Save` and `Update` leave it. -/
def WellFormed (r : MemoryUserRepository) : Prop :=
  r.users.keys.Nodup ∧ ∀ e ∈ r.users, e.1 = e.2.ID

/-! ## Concrete data of the runs evaluated below -/

/-- The Kelvin sign U+212A: one code point, three UTF-8 bytes; `unicode.ToLower` maps it
to the ASCII letter `k`. -/
def kelvinSign : Char := Char.ofNat 0x212A

/-- The ideograph U+65E5: one code point, three UTF-8 bytes, not white space. -/
def sunIdeograph : Char := Char.ofNat 0x65E5

/-- The request `Create("Alice", "a@b.com", "alice")`. -/
def aliceRequest : CreateUserRequest :=
  ⟨"Alice".toList, "a@b.com".toList, "alice".toList⟩

/-- The repository after `Create("Alice", "a@b.com", "alice")` on the empty repository,
the generated ID being `u1`. -/
def aliceRepo : MemoryUserRepository :=
  (UserService.CreateUser excerptCaseTable NewMemoryUserRepository "u1".toList aliceRequest).2

/-- The repository after `Create("Kelvin", "k@b.co", "K")` on the empty repository,
the generated ID being `u1`. -/
def kelvinRepo : MemoryUserRepository :=
  (UserService.CreateUser excerptCaseTable NewMemoryUserRepository "u1".toList
    ⟨"Kelvin".toList, "k@b.co".toList, [kelvinSign]⟩).2

/-- A run of six calls: two creations, a conflicting update, an update of the first user
to its own email, a deletion, and a creation that takes over the freed email. -/
def sampleCalls : List Call :=
  [ .create "u1".toList aliceRequest,
    .create "u2".toList ⟨"Bob".toList, "bob@b.com".toList, "bobby".toList⟩,
    .update "u2".toList ⟨none, some " A@B.com ".toList, none⟩,
    .update "u1".toList ⟨some "Alice A.".toList, some "a@b.com".toList, none⟩,
    .delete "u1".toList,
    .create "u3".toList ⟨"Carol".toList, "A@b.com".toList, "carol".toList⟩ ]

/-! ## Interleaved calls of `CreateUser`

Every repository method holds the lock of the repository from its first to its last
statement, so a call of `CreateUser` touches the shared state in three atomic steps:
`ExistsByEmail`, `ExistsByUsername` and `Save` (with the construction of the user, which
is local to the call, just before it). -/

/-- The progress of one call of `CreateUser`: the repository call it will make next, or
the result it has returned. -/
inductive CreateTask where
  | atExistsByEmail (newID : UserID) (req : CreateUserRequest)
  | atExistsByUsername (newID : UserID) (req : CreateUserRequest)
  | atSave (newID : UserID) (req : CreateUserRequest)
  | returned (result : Except Error UserResponse)
  deriving DecidableEq, Repr

/-- One atomic step of a call of `CreateUser` on the shared repository. -/
def CreateTask.step (T : CaseTable) (r : MemoryUserRepository) :
    CreateTask → CreateTask × MemoryUserRepository
  | .atExistsByEmail newID req =>
    match r.ExistsByEmail T req.Email with
    | .error err => (.returned (.error err), r)
    | .ok emailExists =>
      if emailExists then (.returned (.error ErrEmailExists), r)
      else (.atExistsByUsername newID req, r)
  | .atExistsByUsername newID req =>
    match r.ExistsByUsername T req.Username with
    | .error err => (.returned (.error err), r)
    | .ok usernameExists =>
      if usernameExists then (.returned (.error ErrUsernameExists), r)
      else (.atSave newID req, r)
  | .atSave newID req =>
    match NewUser T newID req.Name req.Email req.Username with
    | .error err => (.returned (.error err), r)
    | .ok user =>
      match r.Save user with
      | (some err, r1) => (.returned (.error err), r1)
      | (none, r1) => (.returned (.ok (UserService.userToResponse user)), r1)
  | .returned result => (.returned result, r)

/-- Two calls of `CreateUser` in progress on one repository. -/
structure RaceState where
  first : CreateTask
  second : CreateTask
  repo : MemoryUserRepository
  deriving DecidableEq, Repr

/-- The scheduler lets one of the two calls make its next step: the second call when
`pick` is true, the first otherwise. -/
def RaceState.step (T : CaseTable) (s : RaceState) (pick : Bool) : RaceState :=
  if pick then
    { first := s.first, second := (CreateTask.step T s.repo s.second).1,
      repo := (CreateTask.step T s.repo s.second).2 }
  else
    { first := (CreateTask.step T s.repo s.first).1, second := s.second,
      repo := (CreateTask.step T s.repo s.first).2 }

/-- The state after a schedule, a sequence of picks. -/
def interleave (T : CaseTable) (s : RaceState) (schedule : List Bool) : RaceState :=
  schedule.foldl (RaceState.step T) s

/-- The second request of the race: the email of `aliceRequest`, another username. -/
def aliceTwinRequest : CreateUserRequest :=
  ⟨"Alice B".toList, "a@b.com".toList, "alice2".toList⟩

/-- Two calls about to start on the empty repository, with generated IDs `u1` and `u2`. -/
def raceStart : RaceState :=
  { first := .atExistsByEmail "u1".toList aliceRequest,
    second := .atExistsByEmail "u2".toList aliceTwinRequest,
    repo := NewMemoryUserRepository }

/-- The user stored by `aliceRepo`. -/
def aliceUser : User := ⟨"u1".toList, "Alice".toList, "a@b.com".toList, "alice".toList⟩

/-- A user with another ID and the email and username of `aliceUser`. -/
def aliceDouble : User := ⟨"u2".toList, "Eve".toList, "a@b.com".toList, "alice".toList⟩

/-! ## Facts about the string functions -/

theorem TrimSpace_of_trimmed {s : GoString} (h : Trimmed s) : TrimSpace s = s := by
  unfold TrimSpace
  have h1 : s.dropWhile unicodeIsSpace = s := by
    rw [List.dropWhile_eq_self_iff]
    intro hl
    cases s with
    | nil => simp at hl
    | cons a t =>
      have ha := h.1 a rfl
      simp [ha]
  rw [h1, List.rdropWhile_eq_self_iff]
  intro hl
  have hb := h.2 (s.getLast hl) (List.getLast?_eq_getLast _ hl)
  simp [hb]

theorem trimmed_TrimSpace (s : GoString) : Trimmed (TrimSpace s) := by
  unfold TrimSpace
  constructor
  · intro c hc
    obtain ⟨t, ht⟩ := List.rdropWhile_prefix unicodeIsSpace (l := s.dropWhile unicodeIsSpace)
    have hd := List.head?_dropWhile_not unicodeIsSpace s
    cases hm : (s.dropWhile unicodeIsSpace).rdropWhile unicodeIsSpace with
    | nil => rw [hm] at hc; simp at hc
    | cons a m =>
      rw [hm] at hc ht
      simp only [List.head?_cons, Option.some.injEq] at hc
      rw [← ht] at hd
      simp only [List.cons_append, List.head?_cons] at hd
      rw [← hc]; exact hd
  · intro c hc
    by_cases hl : (s.dropWhile unicodeIsSpace).rdropWhile unicodeIsSpace = []
    · rw [hl] at hc; simp at hc
    · have hn := List.rdropWhile_last_not unicodeIsSpace (l := s.dropWhile unicodeIsSpace) hl
      rw [List.getLast?_eq_getLast _ hl] at hc
      simp only [Option.some.injEq] at hc
      rw [← hc]
      simpa using hn

theorem TrimSpace_idem (s : GoString) : TrimSpace (TrimSpace s) = TrimSpace s :=
  TrimSpace_of_trimmed (trimmed_TrimSpace s)

theorem trimmed_ToLower (T : CaseTable) {s : GoString} (h : Trimmed s) :
    Trimmed (ToLower T s) := by
  unfold ToLower
  constructor
  · intro c hc
    rw [List.head?_map] at hc
    cases hh : s.head? with
    | none => rw [hh] at hc; simp at hc
    | some a =>
      rw [hh] at hc
      simp only [Option.map_some', Option.some.injEq] at hc
      rw [← hc]
      exact T.lower_space a (h.1 a hh)
  · intro c hc
    rw [List.getLast?_map] at hc
    cases hh : s.getLast? with
    | none => rw [hh] at hc; simp at hc
    | some a =>
      rw [hh] at hc
      simp only [Option.map_some', Option.some.injEq] at hc
      rw [← hc]
      exact T.lower_space a (h.2 a hh)

theorem ToLower_idem (T : CaseTable) (s : GoString) : ToLower T (ToLower T s) = ToLower T s := by
  unfold ToLower
  rw [List.map_map]
  apply List.map_congr_left
  intro c _
  exact T.lower_idem c

theorem trimmed_normalize (T : CaseTable) (s : GoString) : Trimmed (normalize T s) :=
  trimmed_ToLower T (trimmed_TrimSpace s)

theorem normalize_idem (T : CaseTable) (s : GoString) :
    normalize T (normalize T s) = normalize T s := by
  have h := TrimSpace_of_trimmed (trimmed_normalize T s)
  unfold normalize at h ⊢
  rw [h, ToLower_idem]

theorem TrimSpace_eq_nil_iff (s : GoString) :
    TrimSpace s = [] ↔ ∀ c ∈ s, unicodeIsSpace c = true := by
  unfold TrimSpace
  rw [List.rdropWhile_eq_nil_iff]
  constructor
  · intro h
    have hd := List.head?_dropWhile_not unicodeIsSpace s
    cases hm : s.dropWhile unicodeIsSpace with
    | nil => exact List.dropWhile_eq_nil_iff.mp hm
    | cons a m =>
      rw [hm] at hd h
      simp only [List.head?_cons] at hd
      have ha := h a (List.mem_cons_self a m)
      rw [hd] at ha
      exact absurd ha (by decide)
  · intro h
    rw [List.dropWhile_eq_nil_iff.mpr h]
    intro x hx
    simp at hx

/-! ## Facts about the map operations -/

theorem UserMap.lookup_store_self (m : UserMap) (id : UserID) (u : User) :
    (m.store id u).lookup id = some u := by
  induction m with
  | nil => simp [UserMap.store, UserMap.lookup]
  | cons e m ih =>
    obtain ⟨k, v⟩ := e
    by_cases hk : k = id
    · simp [UserMap.store, UserMap.lookup, hk]
    · simp [UserMap.store, UserMap.lookup, hk, ih]

theorem UserMap.mem_store_self (m : UserMap) (id : UserID) (u : User) :
    (id, u) ∈ m.store id u := by
  induction m with
  | nil => simp [UserMap.store]
  | cons e m ih =>
    obtain ⟨k, v⟩ := e
    by_cases hk : k = id
    · simp [UserMap.store, hk]
    · simp [UserMap.store, hk, ih]

theorem UserMap.mem_store {m : UserMap} {id : UserID} {u : User} {e : UserID × User}
    (h : e ∈ m.store id u) : e = (id, u) ∨ e ∈ m := by
  induction m with
  | nil =>
    simp only [UserMap.store, List.mem_singleton] at h
    exact Or.inl h
  | cons a m ih =>
    obtain ⟨k, v⟩ := a
    by_cases hk : k = id
    · simp only [UserMap.store, hk, if_true, List.mem_cons] at h
      rcases h with h | h
      · exact Or.inl h
      · exact Or.inr (List.mem_cons_of_mem _ h)
    · simp only [UserMap.store, hk, if_false, List.mem_cons] at h
      rcases h with h | h
      · exact Or.inr (h ▸ List.mem_cons_self _ _)
      · rcases ih h with h | h
        · exact Or.inl h
        · exact Or.inr (List.mem_cons_of_mem _ h)

theorem UserMap.mem_remove {m : UserMap} {id : UserID} {e : UserID × User}
    (h : e ∈ m.remove id) : e ∈ m := by
  induction m with
  | nil => simp [UserMap.remove] at h
  | cons a m ih =>
    obtain ⟨k, v⟩ := a
    by_cases hk : k = id
    · simp only [UserMap.remove, hk, if_true] at h
      exact List.mem_cons_of_mem _ h
    · simp only [UserMap.remove, hk, if_false, List.mem_cons] at h
      rcases h with h | h
      · exact h ▸ List.mem_cons_self _ _
      · exact List.mem_cons_of_mem _ (ih h)

theorem UserMap.lookup_some_mem {m : UserMap} {id : UserID} {u : User}
    (h : m.lookup id = some u) : (id, u) ∈ m := by
  induction m with
  | nil => simp [UserMap.lookup] at h
  | cons a m ih =>
    obtain ⟨k, v⟩ := a
    by_cases hk : k = id
    · simp only [UserMap.lookup, hk, if_true, Option.some.injEq] at h
      rw [hk, h]
      exact List.mem_cons_self _ _
    · simp only [UserMap.lookup, hk, if_false] at h
      exact List.mem_cons_of_mem _ (ih h)

theorem UserMap.store_lookup_self {m : UserMap} {id : UserID} {u : User}
    (h : m.lookup id = some u) : m.store id u = m := by
  induction m with
  | nil => simp [UserMap.lookup] at h
  | cons a m ih =>
    obtain ⟨k, v⟩ := a
    by_cases hk : k = id
    · simp only [UserMap.lookup, hk, if_true, Option.some.injEq] at h
      simp [UserMap.store, hk, h]
    · simp only [UserMap.lookup, hk, if_false] at h
      simp [UserMap.store, hk, ih h]

theorem UserMap.lookup_store_ne (m : UserMap) {id k : UserID} (u : User) (h : k ≠ id) :
    (m.store id u).lookup k = m.lookup k := by
  induction m with
  | nil => simp [UserMap.store, UserMap.lookup, Ne.symm h]
  | cons e m ih =>
    obtain ⟨k1, v⟩ := e
    by_cases hk : k1 = id
    · subst hk
      simp [UserMap.store, UserMap.lookup, Ne.symm h]
    · simp only [UserMap.store, hk, if_false, UserMap.lookup, ih]

theorem UserMap.keys_cons (k : UserID) (v : User) (m : UserMap) :
    UserMap.keys ((k, v) :: m) = k :: UserMap.keys m := rfl

theorem UserMap.lookup_eq_none_iff (m : UserMap) (id : UserID) :
    UserMap.lookup m id = none ↔ id ∉ UserMap.keys m := by
  induction m with
  | nil => exact ⟨fun _ h => (nomatch h), fun _ => rfl⟩
  | cons e m ih =>
    obtain ⟨k, v⟩ := e
    rw [UserMap.keys_cons, List.mem_cons]
    by_cases hk : k = id
    · simp only [UserMap.lookup, hk, if_true, reduceCtorEq, true_or, not_true_eq_false]
    · have hk1 : ¬ id = k := fun h => hk h.symm
      simp only [UserMap.lookup, hk, if_false, ih, hk1, false_or]

theorem UserMap.keys_store_of_mem (m : UserMap) {id : UserID} (u : User)
    (h : id ∈ UserMap.keys m) : UserMap.keys (UserMap.store m id u) = UserMap.keys m := by
  induction m with
  | nil => exact nomatch h
  | cons e m ih =>
    obtain ⟨k, v⟩ := e
    rw [UserMap.keys_cons, List.mem_cons] at h
    by_cases hk : k = id
    · simp only [UserMap.store, hk, if_true, UserMap.keys_cons]
    · have hm : id ∈ UserMap.keys m := h.resolve_left (fun h => hk h.symm)
      simp only [UserMap.store, hk, if_false, UserMap.keys_cons, ih hm]

theorem UserMap.store_of_not_mem (m : UserMap) {id : UserID} (u : User)
    (h : id ∉ UserMap.keys m) : UserMap.store m id u = m ++ [(id, u)] := by
  induction m with
  | nil => rfl
  | cons e m ih =>
    obtain ⟨k, v⟩ := e
    rw [UserMap.keys_cons, List.mem_cons, not_or] at h
    have hk : ¬ k = id := fun hk => h.1 hk.symm
    simp only [UserMap.store, hk, if_false, ih h.2, List.cons_append]

theorem UserMap.keys_remove_sublist (m : UserMap) (id : UserID) :
    (UserMap.keys (UserMap.remove m id)).Sublist (UserMap.keys m) := by
  induction m with
  | nil => exact List.Sublist.slnil
  | cons e m ih =>
    obtain ⟨k, v⟩ := e
    by_cases hk : k = id
    · simp only [UserMap.remove, hk, if_true, UserMap.keys_cons]
      exact List.sublist_cons_self _ _
    · simp only [UserMap.remove, hk, if_false, UserMap.keys_cons]
      exact List.Sublist.cons₂ _ ih

theorem UserMap.lookup_remove_self {m : UserMap} (id : UserID)
    (h : (UserMap.keys m).Nodup) : UserMap.lookup (UserMap.remove m id) id = none := by
  induction m with
  | nil => rfl
  | cons e m ih =>
    obtain ⟨k, v⟩ := e
    rw [UserMap.keys_cons, List.nodup_cons] at h
    by_cases hk : k = id
    · subst hk
      simp only [UserMap.remove, if_true]
      exact (UserMap.lookup_eq_none_iff m k).mpr h.1
    · simp only [UserMap.remove, hk, if_false, UserMap.lookup]
      exact ih h.2

theorem UserMap.lookup_remove_ne (m : UserMap) {id k : UserID} (h : k ≠ id) :
    UserMap.lookup (UserMap.remove m id) k = UserMap.lookup m k := by
  induction m with
  | nil => rfl
  | cons e m ih =>
    obtain ⟨k1, v⟩ := e
    by_cases hk : k1 = id
    · subst hk
      have hne : ¬ k1 = k := fun hh => h hh.symm
      simp only [UserMap.remove, if_true, UserMap.lookup, hne, if_false]
    · simp only [UserMap.remove, hk, if_false, UserMap.lookup, ih]

theorem UserMap.mem_keys_of_mem {m : UserMap} {k : UserID} {u : User} (h : (k, u) ∈ m) :
    k ∈ UserMap.keys m :=
  List.mem_map.mpr ⟨(k, u), h, rfl⟩

theorem UserMap.mem_iff_lookup {m : UserMap} (h : (UserMap.keys m).Nodup) (k : UserID)
    (u : User) : (k, u) ∈ m ↔ UserMap.lookup m k = some u := by
  refine ⟨fun hm => ?_, UserMap.lookup_some_mem⟩
  induction m with
  | nil => exact nomatch hm
  | cons e m ih =>
    obtain ⟨k1, v⟩ := e
    rw [UserMap.keys_cons, List.nodup_cons] at h
    rcases List.mem_cons.mp hm with heq | hm
    · simp only [Prod.mk.injEq] at heq
      simp only [UserMap.lookup, heq.1, heq.2, if_true]
    · have hk : ¬ k1 = k := by
        intro hk
        apply h.1
        rw [hk]
        exact UserMap.mem_keys_of_mem hm
      simp only [UserMap.lookup, hk, if_false]
      exact ih h.2 hm

theorem UserMap.keys_store_nodup {m : UserMap} (id : UserID) (u : User)
    (h : (UserMap.keys m).Nodup) : (UserMap.keys (UserMap.store m id u)).Nodup := by
  by_cases hm : id ∈ UserMap.keys m
  · rw [UserMap.keys_store_of_mem m u hm]
    exact h
  · rw [UserMap.store_of_not_mem m u hm]
    simp only [UserMap.keys, List.map_append, List.map_cons, List.map_nil]
    rw [List.nodup_append]
    refine ⟨h, List.nodup_singleton _, ?_⟩
    intro a ha hb
    simp only [List.mem_singleton] at hb
    subst hb
    exact hm ha

/-! ## Facts about the constructor and the service -/

theorem NewUser_ok (T : CaseTable) (newID : UserID) {name email username : GoString}
    (hn : validateName name = none) (he : validateEmail email = none)
    (hu : validateUsername username = none) :
    NewUser T newID name email username =
      .ok { ID := newID, Name := TrimSpace name, Email := normalize T email,
            Username := normalize T username } := by
  simp [NewUser, hn, he, hu, normalize]

theorem NewUser_ok_inv (T : CaseTable) {newID : UserID} {name email username : GoString}
    {u : User} (h : NewUser T newID name email username = .ok u) :
    validateName name = none ∧ validateEmail email = none ∧ validateUsername username = none ∧
    u = { ID := newID, Name := TrimSpace name, Email := normalize T email,
          Username := normalize T username } := by
  unfold NewUser at h
  cases hn : validateName name with
  | some e => rw [hn] at h; simp at h
  | none =>
    cases he : validateEmail email with
    | some e => rw [hn, he] at h; simp at h
    | none =>
      cases hu : validateUsername username with
      | some e => rw [hn, he, hu] at h; simp at h
      | none =>
        rw [hn, he, hu] at h
        simp only [Except.ok.injEq] at h
        exact ⟨rfl, rfl, rfl, h.symm⟩

theorem CreateUser_unfold (T : CaseTable) (r : MemoryUserRepository) (newID : UserID)
    (req : CreateUserRequest) :
    UserService.CreateUser T r newID req =
      if r.users.any (fun e => e.2.Email = normalize T req.Email) then (.error ErrEmailExists, r)
      else if r.users.any (fun e => e.2.Username = normalize T req.Username) then
        (.error ErrUsernameExists, r)
      else
        match NewUser T newID req.Name req.Email req.Username with
        | .error err => (.error err, r)
        | .ok user =>
          (.ok (UserService.userToResponse user), { users := r.users.store user.ID user }) := by
  unfold UserService.CreateUser MemoryUserRepository.ExistsByEmail
    MemoryUserRepository.ExistsByUsername MemoryUserRepository.Save normalize
  simp only

theorem CreateUser_ok_inv (T : CaseTable) {r : MemoryUserRepository} {newID : UserID}
    {req : CreateUserRequest} {resp : UserResponse}
    (h : (UserService.CreateUser T r newID req).1 = .ok resp) :
    r.users.any (fun e => e.2.Email = normalize T req.Email) = false ∧
    r.users.any (fun e => e.2.Username = normalize T req.Username) = false ∧
    validateName req.Name = none ∧ validateEmail req.Email = none ∧
    validateUsername req.Username = none ∧
    UserService.CreateUser T r newID req =
      (.ok (UserService.userToResponse
          { ID := newID, Name := TrimSpace req.Name, Email := normalize T req.Email,
            Username := normalize T req.Username }),
        ⟨r.users.store newID
          { ID := newID, Name := TrimSpace req.Name, Email := normalize T req.Email,
            Username := normalize T req.Username }⟩) := by
  rw [CreateUser_unfold] at h ⊢
  cases hE : r.users.any (fun e => e.2.Email = normalize T req.Email) with
  | true => rw [hE] at h; simp at h
  | false =>
    cases hU : r.users.any (fun e => e.2.Username = normalize T req.Username) with
    | true => rw [hE, hU] at h; simp at h
    | false =>
      rw [hE, hU] at h
      simp only [Bool.false_eq_true, if_false] at h ⊢
      cases hN : NewUser T newID req.Name req.Email req.Username with
      | error e => rw [hN] at h; simp at h
      | ok u =>
        obtain ⟨h1, h2, h3, h4⟩ := NewUser_ok_inv T hN
        subst h4
        exact ⟨trivial, trivial, h1, h2, h3, rfl⟩

theorem validateName_eq (name : GoString) :
    validateName name = if (∀ c ∈ name, unicodeIsSpace c = true) then some ErrInvalidName
      else none := by
  unfold validateName
  by_cases h : TrimSpace name = []
  · rw [if_pos h, if_pos ((TrimSpace_eq_nil_iff name).mp h)]
  · rw [if_neg h, if_neg (fun hc => h ((TrimSpace_eq_nil_iff name).mpr hc))]

theorem validateName_err {name : GoString} {err : Error} (h : validateName name = some err) :
    err = ErrInvalidName := by
  unfold validateName at h
  split at h <;> simp at h
  exact h.symm

theorem validateEmail_err {email : GoString} {err : Error}
    (h : validateEmail email = some err) : err = ErrInvalidEmail := by
  unfold validateEmail at h
  simp only at h
  split at h
  · simp at h; exact h.symm
  · split at h
    · simp at h; exact h.symm
    · simp at h

theorem validateUsername_err {username : GoString} {err : Error}
    (h : validateUsername username = some err) : err = ErrInvalidUsername := by
  unfold validateUsername at h
  simp only at h
  split at h <;> simp at h
  exact h.symm

/-! ## The matcher decides the denotation -/

namespace Regex

theorem matches_fail (s : GoString) : ¬ Matches fail s := fun h => nomatch h

theorem matches_eps_iff {s : GoString} : Matches eps s ↔ s = [] :=
  ⟨fun h => by cases h; rfl, fun h => h ▸ Matches.eps⟩

theorem matches_cls_iff {p : Char → Bool} {s : GoString} :
    Matches (cls p) s ↔ ∃ c, p c = true ∧ s = [c] :=
  ⟨fun h => by cases h with | cls hc => exact ⟨_, hc, rfl⟩,
   fun ⟨_, hc, hs⟩ => hs ▸ Matches.cls hc⟩

theorem matches_cat_iff {a b : Regex} {s : GoString} :
    Matches (cat a b) s ↔ ∃ x y, s = x ++ y ∧ Matches a x ∧ Matches b y :=
  ⟨fun h => by cases h with | cat hx hy => exact ⟨_, _, rfl, hx, hy⟩,
   fun ⟨_, _, hs, hx, hy⟩ => hs ▸ Matches.cat hx hy⟩

theorem matches_alt_iff {a b : Regex} {s : GoString} :
    Matches (alt a b) s ↔ Matches a s ∨ Matches b s :=
  ⟨fun h => by
    cases h with
    | altL hx => exact Or.inl hx
    | altR hx => exact Or.inr hx,
   fun h => h.elim Matches.altL Matches.altR⟩

theorem matches_star_cons {a : Regex} {c : Char} {s : GoString}
    (h : Matches (star a) (c :: s)) :
    ∃ x y, s = x ++ y ∧ Matches a (c :: x) ∧ Matches (star a) y := by
  generalize hr : star a = r at h
  generalize hw : c :: s = w at h
  induction h with
  | eps => cases hr
  | cls _ => cases hr
  | cat _ _ _ _ => cases hr
  | altL _ _ => cases hr
  | altR _ _ => cases hr
  | starNil => cases hw
  | @starCons a1 x y hx hy _ ihy =>
    cases hr
    cases x with
    | nil => exact ihy rfl hw
    | cons d x1 =>
      simp only [List.cons_append, List.cons.injEq] at hw
      obtain ⟨rfl, rfl⟩ := hw
      exact ⟨x1, y, rfl, hx, hy⟩

theorem nullable_iff (r : Regex) : nullable r = true ↔ Matches r [] := by
  induction r with
  | fail => simp [nullable, matches_fail]
  | eps => simp [nullable, matches_eps_iff]
  | cls p => simp [nullable, matches_cls_iff]
  | cat a b iha ihb =>
    simp only [nullable, Bool.and_eq_true, iha, ihb, matches_cat_iff]
    constructor
    · intro h
      exact ⟨[], [], rfl, h.1, h.2⟩
    · rintro ⟨x, y, hxy, hx, hy⟩
      have hnil := List.append_eq_nil.mp hxy.symm
      rw [hnil.1] at hx
      rw [hnil.2] at hy
      exact ⟨hx, hy⟩
  | alt a b iha ihb => simp [nullable, iha, ihb, matches_alt_iff]
  | star a _ => simp [nullable, Matches.starNil]

theorem matches_deriv_iff (r : Regex) (c : Char) (s : GoString) :
    Matches (deriv r c) s ↔ Matches r (c :: s) := by
  induction r generalizing s with
  | fail => simp [deriv, matches_fail]
  | eps => simp [deriv, matches_fail, matches_eps_iff]
  | cls p =>
    by_cases hp : p c = true
    · simp only [deriv, hp, if_true, matches_eps_iff, matches_cls_iff]
      constructor
      · intro h
        exact ⟨c, hp, by rw [h]⟩
      · rintro ⟨d, _, hd⟩
        simp only [List.cons.injEq] at hd
        exact hd.2
    · simp only [deriv, hp, matches_cls_iff]
      constructor
      · intro h
        exact absurd h (matches_fail _)
      · rintro ⟨d, hd, hs⟩
        simp only [List.cons.injEq] at hs
        rw [← hs.1] at hd
        exact absurd hd hp
  | cat a b iha ihb =>
    by_cases hn : nullable a = true
    · simp only [deriv, hn, if_true, matches_alt_iff, matches_cat_iff]
      constructor
      · rintro (⟨x, y, rfl, hx, hy⟩ | h)
        · exact ⟨c :: x, y, rfl, (iha x).mp hx, hy⟩
        · exact ⟨[], c :: s, rfl, (nullable_iff a).mp hn, (ihb s).mp h⟩
      · rintro ⟨x, y, hxy, hx, hy⟩
        cases x with
        | nil =>
          simp only [List.nil_append] at hxy
          rw [← hxy] at hy
          exact Or.inr ((ihb s).mpr hy)
        | cons d x1 =>
          simp only [List.cons_append, List.cons.injEq] at hxy
          obtain ⟨rfl, rfl⟩ := hxy
          exact Or.inl ⟨x1, y, rfl, (iha x1).mpr hx, hy⟩
    · have hn1 : nullable a = false := by simpa using hn
      simp only [deriv, hn1, Bool.false_eq_true, if_false, matches_cat_iff]
      constructor
      · rintro ⟨x, y, rfl, hx, hy⟩
        exact ⟨c :: x, y, rfl, (iha x).mp hx, hy⟩
      · rintro ⟨x, y, hxy, hx, hy⟩
        cases x with
        | nil => exact absurd ((nullable_iff a).mpr hx) hn
        | cons d x1 =>
          simp only [List.cons_append, List.cons.injEq] at hxy
          obtain ⟨rfl, rfl⟩ := hxy
          exact ⟨x1, y, rfl, (iha x1).mpr hx, hy⟩
  | alt a b iha ihb => simp only [deriv, matches_alt_iff, iha, ihb]
  | star a iha =>
    simp only [deriv, matches_cat_iff]
    constructor
    · rintro ⟨x, y, rfl, hx, hy⟩
      exact Matches.starCons (x := c :: x) ((iha x).mp hx) hy
    · intro h
      obtain ⟨x, y, hxy, hx, hy⟩ := matches_star_cons h
      exact ⟨x, y, hxy, (iha x).mpr hx, hy⟩

theorem fullMatch_iff (r : Regex) (s : GoString) : fullMatch r s = true ↔ Matches r s := by
  induction s generalizing r with
  | nil => simp [fullMatch, nullable_iff]
  | cons c s ih => simp only [fullMatch, ih, matches_deriv_iff]

theorem matches_star_cls_iff (p : Char → Bool) (s : GoString) :
    Matches (star (cls p)) s ↔ ∀ c ∈ s, p c = true := by
  induction s with
  | nil => simp [Matches.starNil]
  | cons c s ih =>
    constructor
    · intro h
      obtain ⟨x, y, hxy, hx, hy⟩ := matches_star_cons h
      obtain ⟨d, hd, hdx⟩ := matches_cls_iff.mp hx
      simp only [List.cons.injEq] at hdx
      obtain ⟨rfl, rfl⟩ := hdx
      simp only [List.nil_append] at hxy
      subst hxy
      intro e he
      rcases List.mem_cons.mp he with rfl | he
      · exact hd
      · exact (ih.mp hy) e he
    · intro h
      exact Matches.starCons (x := [c]) (Matches.cls (h c (List.mem_cons_self c s)))
        (ih.mpr (fun e he => h e (List.mem_cons_of_mem c he)))

theorem matches_plus_cls_iff (p : Char → Bool) (s : GoString) :
    Matches (plus (cls p)) s ↔ s ≠ [] ∧ ∀ c ∈ s, p c = true := by
  simp only [plus, matches_cat_iff, matches_cls_iff, matches_star_cls_iff]
  constructor
  · rintro ⟨x, y, rfl, ⟨c, hc, rfl⟩, hy⟩
    refine ⟨by simp, ?_⟩
    intro e he
    rcases List.mem_cons.mp he with rfl | he
    · exact hc
    · exact hy e he
  · rintro ⟨hne, h⟩
    cases s with
    | nil => exact absurd rfl hne
    | cons c s =>
      exact ⟨[c], s, rfl, ⟨c, h c (List.mem_cons_self c s), rfl⟩,
        fun e he => h e (List.mem_cons_of_mem c he)⟩

theorem matches_atLeastTwo_cls_iff (p : Char → Bool) (s : GoString) :
    Matches (atLeastTwo (cls p)) s ↔ 2 ≤ s.length ∧ ∀ c ∈ s, p c = true := by
  simp only [atLeastTwo, matches_cat_iff, matches_cls_iff, matches_star_cls_iff]
  constructor
  · rintro ⟨x, y, rfl, ⟨c, hc, rfl⟩, z, w, rfl, ⟨d, hd, rfl⟩, hw⟩
    refine ⟨by simp, ?_⟩
    intro e he
    simp only [List.singleton_append, List.mem_cons] at he
    rcases he with rfl | rfl | he
    · exact hc
    · exact hd
    · exact hw e he
  · rintro ⟨hlen, h⟩
    match s, hlen, h with
    | c :: d :: s, _, h =>
      exact ⟨[c], d :: s, rfl, ⟨c, h c (by simp), rfl⟩, [d], s, rfl,
        ⟨d, h d (by simp), rfl⟩, fun e he => h e (by simp [he])⟩

theorem matches_lit_iff (c : Char) (s : GoString) : Matches (lit c) s ↔ s = [c] := by
  simp only [lit, matches_cls_iff, beq_iff_eq]
  constructor
  · rintro ⟨d, rfl, rfl⟩
    rfl
  · intro h
    exact ⟨c, rfl, h⟩

end Regex

theorem emailRegex_matches_iff (s : GoString) :
    emailRegex.fullMatch s = true ↔
      ∃ L D Tl : GoString, s = L ++ '@' :: (D ++ '.' :: Tl) ∧
        (L ≠ [] ∧ ∀ c ∈ L, localClass c = true) ∧
        (D ≠ [] ∧ ∀ c ∈ D, domainClass c = true) ∧
        (2 ≤ Tl.length ∧ ∀ c ∈ Tl, isAsciiLetter c = true) := by
  rw [Regex.fullMatch_iff]
  simp only [emailRegex, Regex.matches_cat_iff, Regex.matches_plus_cls_iff,
    Regex.matches_lit_iff, Regex.matches_atLeastTwo_cls_iff]
  constructor
  · rintro ⟨L, _, rfl, hL, _, _, rfl, rfl, D, _, rfl, hD, _, Tl, rfl, rfl, hT⟩
    exact ⟨L, D, Tl, by simp, hL, hD, hT⟩
  · rintro ⟨L, D, Tl, rfl, hL, hD, hT⟩
    exact ⟨L, _, rfl, hL, ['@'], _, rfl, rfl, D, _, rfl, hD, ['.'], Tl, rfl, rfl, hT⟩

/-! ## The classes of the pattern and the address grammar -/

theorem class_iff_mem (p : Char → Bool) (l : GoString)
    (key : ∀ n : Fin 128, p (Char.ofNat n) = true ↔ Char.ofNat n ∈ l)
    (hmem : ∀ x ∈ l, x.toNat < 128) (hp : ∀ c, p c = true → c.toNat < 128) (c : Char) :
    p c = true ↔ c ∈ l := by
  by_cases hc : c.toNat < 128
  · simpa [Char.ofNat_toNat] using key ⟨c.toNat, hc⟩
  · exact ⟨fun h => absurd (hp c h) hc, fun h => absurd (hmem c h) hc⟩

theorem isAsciiLetter_lt {c : Char} (h : isAsciiLetter c = true) : c.toNat < 128 := by
  simp only [isAsciiLetter, Bool.or_eq_true, Bool.and_eq_true, decide_eq_true_eq] at h
  rcases h with h | h <;> omega

theorem isAsciiDigit_lt {c : Char} (h : isAsciiDigit c = true) : c.toNat < 128 := by
  simp only [isAsciiDigit, Bool.and_eq_true, decide_eq_true_eq] at h
  omega

theorem localClass_lt {c : Char} (h : localClass c = true) : c.toNat < 128 := by
  simp only [localClass, Bool.or_eq_true, beq_iff_eq] at h
  rcases h with (((((h | h) | h) | h) | h) | h) | h
  · exact isAsciiLetter_lt h
  · exact isAsciiDigit_lt h
  all_goals (subst h; decide)

theorem domainClass_lt {c : Char} (h : domainClass c = true) : c.toNat < 128 := by
  simp only [domainClass, Bool.or_eq_true, beq_iff_eq] at h
  rcases h with ((h | h) | h) | h
  · exact isAsciiLetter_lt h
  · exact isAsciiDigit_lt h
  all_goals (subst h; decide)

theorem localClass_iff (c : Char) : localClass c = true ↔ c ∈ grammarLocalRunes :=
  class_iff_mem localClass grammarLocalRunes (by decide) (by decide)
    (fun _ h => localClass_lt h) c

theorem domainClass_iff (c : Char) : domainClass c = true ↔ c ∈ grammarDomainRunes :=
  class_iff_mem domainClass grammarDomainRunes (by decide) (by decide)
    (fun _ h => domainClass_lt h) c

theorem isAsciiLetter_iff (c : Char) : isAsciiLetter c = true ↔ c ∈ grammarLetters :=
  class_iff_mem isAsciiLetter grammarLetters (by decide) (by decide)
    (fun _ h => isAsciiLetter_lt h) c

theorem emailRegex_iff_grammar (s : GoString) :
    emailRegex.fullMatch s = true ↔ AddressGrammar s := by
  rw [emailRegex_matches_iff]
  unfold AddressGrammar
  constructor
  · rintro ⟨L, D, Tl, rfl, ⟨hL, hLc⟩, ⟨hD, hDc⟩, hT, hTc⟩
    exact ⟨L, D, Tl, by simp, hL, fun c hc => (localClass_iff c).mp (hLc c hc), hD,
      fun c hc => (domainClass_iff c).mp (hDc c hc), hT,
      fun c hc => (isAsciiLetter_iff c).mp (hTc c hc)⟩
  · rintro ⟨L, D, Tl, rfl, hL, hLc, hD, hDc, hT, hTc⟩
    exact ⟨L, D, Tl, by simp, ⟨hL, fun c hc => (localClass_iff c).mpr (hLc c hc)⟩,
      ⟨hD, fun c hc => (domainClass_iff c).mpr (hDc c hc)⟩, hT,
      fun c hc => (isAsciiLetter_iff c).mpr (hTc c hc)⟩

theorem validateEmail_none_iff (e : GoString) :
    validateEmail e = none ↔ AddressGrammar (TrimSpace e) := by
  rw [← emailRegex_iff_grammar]
  unfold validateEmail
  simp only
  by_cases h0 : TrimSpace e = []
  · rw [if_pos h0, h0]
    simp only [reduceCtorEq, false_iff]
    decide
  · rw [if_neg h0]
    cases hm : emailRegex.fullMatch (TrimSpace e) <;> simp

theorem count_at_dropWhile (s : GoString) :
    (s.dropWhile unicodeIsSpace).count '@' = s.count '@' := by
  induction s with
  | nil => rfl
  | cons a t ih =>
    by_cases ha : unicodeIsSpace a = true
    · have hne : a ≠ '@' := by
        intro h
        rw [h] at ha
        exact absurd ha (by decide)
      rw [List.dropWhile_cons_of_pos ha, ih, List.count_cons_of_ne (Ne.symm hne)]
    · rw [List.dropWhile_cons_of_neg ha]

theorem count_at_TrimSpace (s : GoString) : (TrimSpace s).count '@' = s.count '@' := by
  unfold TrimSpace List.rdropWhile
  rw [List.count_reverse, count_at_dropWhile, List.count_reverse, count_at_dropWhile]

theorem count_at_of_grammar {s : GoString} (h : AddressGrammar s) : s.count '@' = 1 := by
  obtain ⟨L, D, Tl, rfl, _, hLc, _, hDc, _, hTc⟩ := h
  have hL : L.count '@' = 0 := List.count_eq_zero.mpr (fun hm => absurd (hLc _ hm) (by decide))
  have hD : D.count '@' = 0 := List.count_eq_zero.mpr (fun hm => absurd (hDc _ hm) (by decide))
  have hT : Tl.count '@' = 0 := List.count_eq_zero.mpr (fun hm => absurd (hTc _ hm) (by decide))
  simp [List.count_append, hL, hD, hT, List.count_cons]

/-! ## The update workflow, block by block -/

theorem applyName_ok {req : UpdateUserRequest} {u v : User}
    (h : UserService.applyName req u = .ok v) :
    v.ID = u.ID ∧ v.Email = u.Email ∧ v.Username = u.Username := by
  unfold UserService.applyName at h
  cases hr : req.Name with
  | none =>
    rw [hr] at h
    simp only [Except.ok.injEq] at h
    subst h
    exact ⟨rfl, rfl, rfl⟩
  | some name =>
    simp only [hr, User.UpdateName] at h
    cases hv : validateName name with
    | some err => simp [hv] at h
    | none =>
      simp only [hv, Except.ok.injEq] at h
      subst h
      exact ⟨rfl, rfl, rfl⟩

theorem applyEmail_eq (T : CaseTable) (r : MemoryUserRepository) (req : UpdateUserRequest)
    (u : User) :
    UserService.applyEmail T r req u =
      match req.Email with
      | none => .ok u
      | some email =>
        if r.users.any (fun e => e.2.Email = normalize T email) = true ∧ u.Email ≠ email then
          .error ErrEmailExists
        else
          match validateEmail email with
          | some err => .error err
          | none => .ok { u with Email := normalize T email } := by
  unfold UserService.applyEmail MemoryUserRepository.ExistsByEmail User.UpdateEmail normalize
  cases req.Email with
  | none => rfl
  | some email =>
    simp only [bne_iff_ne, ne_eq, Bool.and_eq_true, decide_eq_true_eq]
    split
    · rfl
    · cases validateEmail email <;> rfl

theorem applyUsername_eq (T : CaseTable) (r : MemoryUserRepository) (req : UpdateUserRequest)
    (u : User) :
    UserService.applyUsername T r req u =
      match req.Username with
      | none => .ok u
      | some username =>
        if r.users.any (fun e => e.2.Username = normalize T username) = true ∧
            u.Username ≠ username then
          .error ErrUsernameExists
        else
          match validateUsername username with
          | some err => .error err
          | none => .ok { u with Username := normalize T username } := by
  unfold UserService.applyUsername MemoryUserRepository.ExistsByUsername User.UpdateUsername
    normalize
  cases req.Username with
  | none => rfl
  | some username =>
    simp only [bne_iff_ne, ne_eq, Bool.and_eq_true, decide_eq_true_eq]
    split
    · rfl
    · cases validateUsername username <;> rfl

theorem applyEmail_ok {T : CaseTable} {r : MemoryUserRepository} {req : UpdateUserRequest}
    {u v : User} (h : UserService.applyEmail T r req u = .ok v) :
    v.ID = u.ID ∧ v.Name = u.Name ∧ v.Username = u.Username ∧
    (v.Email = u.Email ∨
      ∃ email, req.Email = some email ∧ validateEmail email = none ∧
        v.Email = normalize T email ∧
        (r.users.any (fun e => e.2.Email = normalize T email) = false ∨ u.Email = email)) := by
  rw [applyEmail_eq] at h
  cases hr : req.Email with
  | none =>
    rw [hr] at h
    simp only [Except.ok.injEq] at h
    subst h
    exact ⟨rfl, rfl, rfl, Or.inl rfl⟩
  | some email =>
    rw [hr] at h
    simp only at h
    split at h
    · simp at h
    · rename_i hc
      cases hv : validateEmail email with
      | some err => rw [hv] at h; simp at h
      | none =>
        rw [hv] at h
        simp only [Except.ok.injEq] at h
        subst h
        refine ⟨rfl, rfl, rfl, Or.inr ⟨email, rfl, hv, rfl, ?_⟩⟩
        by_cases ha : r.users.any (fun e => e.2.Email = normalize T email) = true
        · right
          by_contra hne
          exact hc ⟨ha, hne⟩
        · left
          exact Bool.eq_false_iff.mpr ha

theorem applyUsername_ok {T : CaseTable} {r : MemoryUserRepository} {req : UpdateUserRequest}
    {u v : User} (h : UserService.applyUsername T r req u = .ok v) :
    v.ID = u.ID ∧ v.Name = u.Name ∧ v.Email = u.Email ∧
    (v.Username = u.Username ∨
      ∃ username, req.Username = some username ∧ validateUsername username = none ∧
        v.Username = normalize T username ∧
        (r.users.any (fun e => e.2.Username = normalize T username) = false ∨
          u.Username = username)) := by
  rw [applyUsername_eq] at h
  cases hr : req.Username with
  | none =>
    rw [hr] at h
    simp only [Except.ok.injEq] at h
    subst h
    exact ⟨rfl, rfl, rfl, Or.inl rfl⟩
  | some username =>
    rw [hr] at h
    simp only at h
    split at h
    · simp at h
    · rename_i hc
      cases hv : validateUsername username with
      | some err => rw [hv] at h; simp at h
      | none =>
        rw [hv] at h
        simp only [Except.ok.injEq] at h
        subst h
        refine ⟨rfl, rfl, rfl, Or.inr ⟨username, rfl, hv, rfl, ?_⟩⟩
        by_cases ha : r.users.any (fun e => e.2.Username = normalize T username) = true
        · right
          by_contra hne
          exact hc ⟨ha, hne⟩
        · left
          exact Bool.eq_false_iff.mpr ha

/-- The shape of every run of `UpdateUser`: an error leaves the repository as it was, and
a success writes the copy that went through the three blocks back under its ID. -/
theorem UpdateUser_cases (T : CaseTable) (r : MemoryUserRepository) (id : GoString)
    (req : UpdateUserRequest) :
    (∃ err, UserService.UpdateUser T r id req = (.error err, r)) ∨
    ∃ u u1 u2 u3 : User, r.users.lookup id = some u ∧
      UserService.applyName req u = .ok u1 ∧ UserService.applyEmail T r req u1 = .ok u2 ∧
      UserService.applyUsername T r req u2 = .ok u3 ∧ r.users.lookup u3.ID ≠ none ∧
      UserService.UpdateUser T r id req =
        (.ok (UserService.userToResponse u3), ⟨r.users.store u3.ID u3⟩) := by
  unfold UserService.UpdateUser MemoryUserRepository.GetByID
  cases hl : r.users.lookup id with
  | none => exact Or.inl ⟨_, rfl⟩
  | some u =>
    simp only
    cases h1 : UserService.applyName req u with
    | error e => exact Or.inl ⟨_, rfl⟩
    | ok u1 =>
      simp only
      cases h2 : UserService.applyEmail T r req u1 with
      | error e => exact Or.inl ⟨_, rfl⟩
      | ok u2 =>
        simp only
        cases h3 : UserService.applyUsername T r req u2 with
        | error e => exact Or.inl ⟨_, rfl⟩
        | ok u3 =>
          simp only [MemoryUserRepository.Update]
          cases h4 : r.users.lookup u3.ID with
          | none => exact Or.inl ⟨_, rfl⟩
          | some w =>
            right
            exact ⟨u, u1, u2, u3, rfl, h1, h2, h3, by simp [h4], rfl⟩

/-! ## Normal forms of valid emails -/

theorem unicodeToLower_grammar (tbl : Char → Char) :
    (∀ c ∈ grammarLocalRunes, unicodeToLower tbl c ∈ grammarLocalRunes) ∧
    (∀ c ∈ grammarDomainRunes, unicodeToLower tbl c ∈ grammarDomainRunes) ∧
    (∀ c ∈ grammarLetters, unicodeToLower tbl c ∈ grammarLetters) := by
  have h1 : ∀ c ∈ grammarLocalRunes, c.toNat < 0x80 ∧ asciiToLower c ∈ grammarLocalRunes := by
    decide
  have h2 : ∀ c ∈ grammarDomainRunes, c.toNat < 0x80 ∧ asciiToLower c ∈ grammarDomainRunes := by
    decide
  have h3 : ∀ c ∈ grammarLetters, c.toNat < 0x80 ∧ asciiToLower c ∈ grammarLetters := by
    decide
  refine ⟨fun c hc => ?_, fun c hc => ?_, fun c hc => ?_⟩
  · simp only [unicodeToLower, (h1 c hc).1, if_true]
    exact (h1 c hc).2
  · simp only [unicodeToLower, (h2 c hc).1, if_true]
    exact (h2 c hc).2
  · simp only [unicodeToLower, (h3 c hc).1, if_true]
    exact (h3 c hc).2

theorem AddressGrammar_ToLower (T : CaseTable) {s : GoString} (h : AddressGrammar s) :
    AddressGrammar (ToLower T s) := by
  obtain ⟨L, D, Tl, rfl, hL, hLc, hD, hDc, hT, hTc⟩ := h
  obtain ⟨g1, g2, g3⟩ := unicodeToLower_grammar T.lower
  have hat : unicodeToLower T.lower '@' = '@' := by
    unfold unicodeToLower
    rw [if_pos (by decide)]
    decide
  have hdot : unicodeToLower T.lower '.' = '.' := by
    unfold unicodeToLower
    rw [if_pos (by decide)]
    decide
  refine ⟨ToLower T L, ToLower T D, ToLower T Tl, ?_, ?_, ?_, ?_, ?_, ?_, ?_⟩
  · simp [ToLower, hat, hdot]
  · simpa [ToLower] using hL
  · intro c hc
    obtain ⟨d, hd, rfl⟩ := List.mem_map.mp hc
    exact g1 d (hLc d hd)
  · simpa [ToLower] using hD
  · intro c hc
    obtain ⟨d, hd, rfl⟩ := List.mem_map.mp hc
    exact g2 d (hDc d hd)
  · simpa [ToLower] using hT
  · intro c hc
    obtain ⟨d, hd, rfl⟩ := List.mem_map.mp hc
    exact g3 d (hTc d hd)

theorem validateEmail_normalize (T : CaseTable) {email : GoString}
    (h : validateEmail email = none) : validateEmail (normalize T email) = none := by
  rw [validateEmail_none_iff] at h ⊢
  rw [TrimSpace_of_trimmed (trimmed_normalize T email)]
  exact AddressGrammar_ToLower T h

theorem grammar_ToLower_no_upper (T : CaseTable) {s : GoString} (h : AddressGrammar s) :
    ∀ c ∈ ToLower T s, ¬ (0x41 ≤ c.toNat ∧ c.toNat ≤ 0x5A) := by
  have hlow : ∀ n : Fin 128, ¬ (0x41 ≤ (asciiToLower (Char.ofNat n)).toNat ∧
      (asciiToLower (Char.ofNat n)).toNat ≤ 0x5A) := by decide
  have h1 : ∀ c ∈ grammarLocalRunes, c.toNat < 0x80 := by decide
  have h2 : ∀ c ∈ grammarDomainRunes, c.toNat < 0x80 := by decide
  have h3 : ∀ c ∈ grammarLetters, c.toNat < 0x80 := by decide
  obtain ⟨L, D, Tl, rfl, _, hLc, _, hDc, _, hTc⟩ := h
  intro c hc
  obtain ⟨d, hd, rfl⟩ := List.mem_map.mp hc
  have hascii : d.toNat < 0x80 := by
    simp only [List.mem_append, List.mem_singleton] at hd
    rcases hd with (((hd | hd) | hd) | hd) | hd
    · exact h1 d (hLc d hd)
    · rw [hd]; decide
    · exact h2 d (hDc d hd)
    · rw [hd]; decide
    · exact h3 d (hTc d hd)
  have hl := hlow ⟨d.toNat, hascii⟩
  simp only [Char.ofNat_toNat] at hl
  simpa only [unicodeToLower, hascii, if_true] using hl

/-- The name and email halves of the field invariants: after a successful `NewUser`,
`UpdateName` or `UpdateEmail` the stored name is non-empty, trimmed and valid, and the
stored email is valid and has no upper-case ASCII letter. -/
theorem name_email_invariants (T : CaseTable) :
    (∀ (newID : UserID) (name email username : GoString) (u : User),
      NewUser T newID name email username = .ok u →
      (u.Name ≠ [] ∧ TrimSpace u.Name = u.Name ∧ validateName u.Name = none) ∧
      (validateEmail u.Email = none ∧ ∀ c ∈ u.Email, ¬ (0x41 ≤ c.toNat ∧ c.toNat ≤ 0x5A))) ∧
    (∀ (u : User) (input : GoString), (u.UpdateName input).1 = none →
      (u.UpdateName input).2.Name ≠ [] ∧
      TrimSpace (u.UpdateName input).2.Name = (u.UpdateName input).2.Name ∧
      validateName (u.UpdateName input).2.Name = none) ∧
    (∀ (u : User) (input : GoString), (u.UpdateEmail T input).1 = none →
      validateEmail (u.UpdateEmail T input).2.Email = none ∧
      ∀ c ∈ (u.UpdateEmail T input).2.Email, ¬ (0x41 ≤ c.toNat ∧ c.toNat ≤ 0x5A)) := by
  have hname : ∀ name : GoString, validateName name = none →
      TrimSpace name ≠ [] ∧ TrimSpace (TrimSpace name) = TrimSpace name ∧
      validateName (TrimSpace name) = none := by
    intro name hn
    have hne : TrimSpace name ≠ [] := by
      intro h0
      simp [validateName, h0] at hn
    refine ⟨hne, TrimSpace_idem name, ?_⟩
    simp [validateName, TrimSpace_idem, hne]
  have hemail : ∀ email : GoString, validateEmail email = none →
      validateEmail (normalize T email) = none ∧
      ∀ c ∈ normalize T email, ¬ (0x41 ≤ c.toNat ∧ c.toNat ≤ 0x5A) := by
    intro email he
    exact ⟨validateEmail_normalize T he,
      grammar_ToLower_no_upper T ((validateEmail_none_iff email).mp he)⟩
  refine ⟨?_, ?_, ?_⟩
  · intro newID name email username u h
    obtain ⟨hn, he, _, rfl⟩ := NewUser_ok_inv T h
    exact ⟨hname name hn, hemail email he⟩
  · intro u input h
    unfold User.UpdateName at h ⊢
    cases hv : validateName input with
    | some err => simp [hv] at h
    | none => exact hname input hv
  · intro u input h
    unfold User.UpdateEmail at h ⊢
    cases hv : validateEmail input with
    | some err => simp [hv] at h
    | none => exact hemail input hv

/-! ## The invariant of the reachable states -/

theorem StoreInv_empty (T : CaseTable) : StoreInv T NewMemoryUserRepository := by
  refine ⟨?_, ?_, ?_⟩ <;> intro e he <;> simp [NewMemoryUserRepository] at he

theorem StoreInv_store (T : CaseTable) {r : MemoryUserRepository} (hinv : StoreInv T r)
    (v : User)
    (hnorm : normalize T v.Email = v.Email ∧ normalize T v.Username = v.Username ∧
      validateEmail v.Email = none)
    (hnew : ∀ e ∈ r.users, e.1 ≠ v.ID → e.2.Email ≠ v.Email ∧ e.2.Username ≠ v.Username) :
    StoreInv T ⟨r.users.store v.ID v⟩ := by
  obtain ⟨hkey, hnf, huniq⟩ := hinv
  refine ⟨?_, ?_, ?_⟩
  · intro e he
    rcases UserMap.mem_store he with rfl | he
    · rfl
    · exact hkey e he
  · intro e he
    rcases UserMap.mem_store he with rfl | he
    · exact hnorm
    · exact hnf e he
  · intro e1 he1 e2 he2 hne
    rcases UserMap.mem_store he1 with rfl | he1 <;> rcases UserMap.mem_store he2 with rfl | he2
    · exact absurd rfl hne
    · have := hnew e2 he2 (Ne.symm hne)
      exact ⟨Ne.symm this.1, Ne.symm this.2⟩
    · exact hnew e1 he1 hne
    · exact huniq e1 he1 e2 he2 hne

theorem StoreInv_remove (T : CaseTable) {r : MemoryUserRepository} (hinv : StoreInv T r)
    (id : UserID) : StoreInv T ⟨r.users.remove id⟩ := by
  obtain ⟨hkey, hnf, huniq⟩ := hinv
  exact ⟨fun e he => hkey e (UserMap.mem_remove he), fun e he => hnf e (UserMap.mem_remove he),
    fun e1 he1 e2 he2 => huniq e1 (UserMap.mem_remove he1) e2 (UserMap.mem_remove he2)⟩

theorem CreateUser_cases (T : CaseTable) (r : MemoryUserRepository) (newID : UserID)
    (req : CreateUserRequest) :
    (∃ err, UserService.CreateUser T r newID req = (.error err, r)) ∨
    ∃ resp, (UserService.CreateUser T r newID req).1 = .ok resp := by
  rw [CreateUser_unfold]
  split
  · exact Or.inl ⟨_, rfl⟩
  · split
    · exact Or.inl ⟨_, rfl⟩
    · split
      · exact Or.inl ⟨_, rfl⟩
      · exact Or.inr ⟨_, rfl⟩

theorem StoreInv_CreateUser (T : CaseTable) {r : MemoryUserRepository} (hinv : StoreInv T r)
    (newID : UserID) (req : CreateUserRequest) :
    StoreInv T (UserService.CreateUser T r newID req).2 := by
  rcases CreateUser_cases T r newID req with ⟨err, h⟩ | ⟨resp, h⟩
  · rw [h]
    exact hinv
  · obtain ⟨hE, hU, _, he, _, hc⟩ := CreateUser_ok_inv T h
    rw [hc]
    refine StoreInv_store T hinv
      { ID := newID, Name := TrimSpace req.Name, Email := normalize T req.Email,
        Username := normalize T req.Username }
      ⟨normalize_idem T _, normalize_idem T _, validateEmail_normalize T he⟩ ?_
    intro e hmem _
    rw [List.any_eq_false] at hE hU
    exact ⟨by simpa using hE e hmem, by simpa using hU e hmem⟩

theorem StoreInv_UpdateUser (T : CaseTable) {r : MemoryUserRepository} (hinv : StoreInv T r)
    (id : GoString) (req : UpdateUserRequest) :
    StoreInv T (UserService.UpdateUser T r id req).2 := by
  rcases UpdateUser_cases T r id req with ⟨err, h⟩ | ⟨u, u1, u2, u3, hl, h1, h2, h3, _, h⟩
  · rw [h]
    exact hinv
  · rw [h]
    have hmem := UserMap.lookup_some_mem hl
    have hid : id = u.ID := hinv.1 _ hmem
    obtain ⟨hnE, hnU, hvE⟩ := hinv.2.1 _ hmem
    obtain ⟨a1, a2, a3⟩ := applyName_ok h1
    obtain ⟨b1, _, b3, b4⟩ := applyEmail_ok h2
    obtain ⟨c1, _, c3, c4⟩ := applyUsername_ok h3
    have hID : u3.ID = id := by rw [c1, b1, a1, hid]
    have hEmail : u3.Email = u.Email ∨
        (normalize T u3.Email = u3.Email ∧ validateEmail u3.Email = none ∧
          r.users.any (fun e => e.2.Email = u3.Email) = false) := by
      rw [c3]
      rcases b4 with b4 | ⟨email, _, hv, hx, hany | hsame⟩
      · exact Or.inl (b4.trans a2)
      · right
        rw [hx]
        exact ⟨normalize_idem T _, validateEmail_normalize T hv, hany⟩
      · left
        rw [hx, ← hsame, a2, hnE]
    have hUsername : u3.Username = u.Username ∨
        (normalize T u3.Username = u3.Username ∧
          r.users.any (fun e => e.2.Username = u3.Username) = false) := by
      rcases c4 with c4 | ⟨username, _, _, hx, hany | hsame⟩
      · exact Or.inl (c4.trans (b3.trans a3))
      · right
        rw [hx]
        exact ⟨normalize_idem T _, hany⟩
      · left
        rw [hx, ← hsame, b3, a3, hnU]
    refine StoreInv_store T hinv u3 ⟨?_, ?_, ?_⟩ ?_
    · rcases hEmail with h | h
      · rw [h]; exact hnE
      · exact h.1
    · rcases hUsername with h | h
      · rw [h]; exact hnU
      · exact h.1
    · rcases hEmail with h | h
      · rw [h]; exact hvE
      · exact h.2.1
    · intro e he hne
      rw [hID] at hne
      have hold := hinv.2.2 e he _ hmem hne
      constructor
      · rcases hEmail with h | h
        · rw [h]; exact hold.1
        · have := List.any_eq_false.mp h.2.2 e he
          simpa using this
      · rcases hUsername with h | h
        · rw [h]; exact hold.2
        · have := List.any_eq_false.mp h.2 e he
          simpa using this

theorem StoreInv_DeleteUser (T : CaseTable) {r : MemoryUserRepository} (hinv : StoreInv T r)
    (id : GoString) : StoreInv T (UserService.DeleteUser r id).2 := by
  unfold UserService.DeleteUser MemoryUserRepository.GetByID MemoryUserRepository.Delete
  cases hl : r.users.lookup id with
  | none => exact hinv
  | some u => exact StoreInv_remove T hinv id

theorem StoreInv_step (T : CaseTable) {r : MemoryUserRepository} (hinv : StoreInv T r)
    (call : Call) : StoreInv T (step T r call) := by
  cases call with
  | create newID req => exact StoreInv_CreateUser T hinv newID req
  | update id req => exact StoreInv_UpdateUser T hinv id req
  | delete id => exact StoreInv_DeleteUser T hinv id

theorem StoreInv_run (T : CaseTable) {r : MemoryUserRepository} (hinv : StoreInv T r)
    (calls : List Call) : StoreInv T (run T r calls) := by
  induction calls generalizing r with
  | nil => exact hinv
  | cons c cs ih => exact ih (StoreInv_step T hinv c)

theorem StoreInv_of_reachable {T : CaseTable} {r : MemoryUserRepository}
    (h : Reachable T r) : StoreInv T r := by
  obtain ⟨calls, _, rfl⟩ := h
  exact StoreInv_run T (StoreInv_empty T) calls

/-- The email half of the self-collision property: in a reachable state, updating a stored
user to its own stored email succeeds, returns the user's data and leaves the store as it
was. -/
theorem self_email_update_ok (T : CaseTable) {r : MemoryUserRepository}
    (hr : Reachable T r) {id : GoString} {u : User} (hu : r.users.lookup id = some u) :
    UserService.UpdateUser T r id ⟨none, some u.Email, none⟩ =
      (.ok (UserService.userToResponse u), r) := by
  have hinv := StoreInv_of_reachable hr
  have hmem := UserMap.lookup_some_mem hu
  have hid : id = u.ID := hinv.1 _ hmem
  obtain ⟨hnE, _, hvE⟩ := hinv.2.1 _ hmem
  have h2 : UserService.applyEmail T r ⟨none, some u.Email, none⟩ u = .ok u := by
    rw [applyEmail_eq]
    simp only [ne_eq, not_true_eq_false, and_false, if_false, hvE, hnE]
  have hu1 : r.users.lookup u.ID = some u := hid ▸ hu
  simp only [UserService.UpdateUser, MemoryUserRepository.GetByID, hu,
    UserService.applyName, h2, UserService.applyUsername, MemoryUserRepository.Update, hu1,
    UserMap.store_lookup_self hu1]

/-! ## The representation invariant of the repository -/

theorem WellFormed_empty : WellFormed NewMemoryUserRepository :=
  ⟨List.nodup_nil, fun _ he => nomatch he⟩

theorem WellFormed_store {r : MemoryUserRepository} (h : WellFormed r) (u : User) :
    WellFormed ⟨r.users.store u.ID u⟩ := by
  refine ⟨UserMap.keys_store_nodup u.ID u h.1, ?_⟩
  intro e he
  rcases UserMap.mem_store he with rfl | he
  · rfl
  · exact h.2 e he

theorem WellFormed_remove {r : MemoryUserRepository} (h : WellFormed r) (id : UserID) :
    WellFormed ⟨r.users.remove id⟩ :=
  ⟨List.Nodup.sublist (UserMap.keys_remove_sublist r.users id) h.1,
    fun e he => h.2 e (UserMap.mem_remove he)⟩

theorem WellFormed_Save {r : MemoryUserRepository} (h : WellFormed r) (u : User) :
    WellFormed (r.Save u).2 :=
  WellFormed_store h u

theorem WellFormed_Update {r : MemoryUserRepository} (h : WellFormed r) (u : User) :
    WellFormed (r.Update u).2 := by
  unfold MemoryUserRepository.Update
  cases r.users.lookup u.ID with
  | none => exact h
  | some _ => exact WellFormed_store h u

theorem WellFormed_Delete {r : MemoryUserRepository} (h : WellFormed r) (id : UserID) :
    WellFormed (r.Delete id).2 := by
  unfold MemoryUserRepository.Delete
  cases r.users.lookup id with
  | none => exact h
  | some _ => exact WellFormed_remove h id

theorem WellFormed_step (T : CaseTable) {r : MemoryUserRepository} (h : WellFormed r)
    (call : Call) : WellFormed (step T r call) := by
  cases call with
  | create newID req =>
    rcases CreateUser_cases T r newID req with ⟨err, he⟩ | ⟨resp, he⟩
    · simp only [step, he]
      exact h
    · obtain ⟨_, _, _, _, _, hc⟩ := CreateUser_ok_inv T he
      simp only [step, hc]
      exact WellFormed_store h
        { ID := newID, Name := TrimSpace req.Name, Email := normalize T req.Email,
          Username := normalize T req.Username }
  | update id req =>
    rcases UpdateUser_cases T r id req with ⟨err, he⟩ | ⟨u, u1, u2, u3, _, _, _, _, _, he⟩
    · simp only [step, he]
      exact h
    · simp only [step, he]
      exact WellFormed_store h u3
  | delete id =>
    simp only [step, UserService.DeleteUser, MemoryUserRepository.GetByID]
    cases hl : r.users.lookup id with
    | none => exact h
    | some u => exact WellFormed_Delete h id

theorem WellFormed_of_reachable {T : CaseTable} {r : MemoryUserRepository}
    (h : Reachable T r) : WellFormed r := by
  obtain ⟨calls, _, rfl⟩ := h
  have key : ∀ (cs : List Call) (r0 : MemoryUserRepository), WellFormed r0 →
      WellFormed (run T r0 cs) := by
    intro cs
    induction cs with
    | nil => exact fun _ h0 => h0
    | cons c cs ih => exact fun r0 h0 => ih _ (WellFormed_step T h0 c)
  exact key calls _ WellFormed_empty

/-! ## Exact results of the blocks of `UpdateUser` -/

theorem applyName_result {req : UpdateUserRequest} {u v : User}
    (h : UserService.applyName req u = .ok v) :
    (req.Name = none → v = u) ∧
    (∀ name, req.Name = some name → v = { u with Name := TrimSpace name }) := by
  unfold UserService.applyName at h
  cases hr : req.Name with
  | none =>
    simp only [hr, Except.ok.injEq] at h
    exact ⟨fun _ => h.symm, fun _ hn => nomatch hn⟩
  | some name =>
    simp only [hr, User.UpdateName] at h
    cases hv : validateName name with
    | some err => simp [hv] at h
    | none =>
      simp only [hv, Except.ok.injEq] at h
      refine ⟨fun hn => (nomatch hn), fun n hn => ?_⟩
      simp only [Option.some.injEq] at hn
      rw [← hn, ← h]

theorem applyEmail_result {T : CaseTable} {r : MemoryUserRepository}
    {req : UpdateUserRequest} {u v : User} (h : UserService.applyEmail T r req u = .ok v) :
    (req.Email = none → v = u) ∧
    (∀ email, req.Email = some email →
      v = { u with Email := ToLower T (TrimSpace email) }) := by
  rw [applyEmail_eq] at h
  cases hr : req.Email with
  | none =>
    simp only [hr, Except.ok.injEq] at h
    exact ⟨fun _ => h.symm, fun _ hn => nomatch hn⟩
  | some email =>
    simp only [hr] at h
    split at h
    · exact nomatch h
    · cases hv : validateEmail email with
      | some err => simp [hv] at h
      | none =>
        simp only [hv, Except.ok.injEq] at h
        refine ⟨fun hn => (nomatch hn), fun n hn => ?_⟩
        simp only [Option.some.injEq] at hn
        rw [← hn, ← h]
        rfl

theorem applyUsername_result {T : CaseTable} {r : MemoryUserRepository}
    {req : UpdateUserRequest} {u v : User}
    (h : UserService.applyUsername T r req u = .ok v) :
    (req.Username = none → v = u) ∧
    (∀ username, req.Username = some username →
      v = { u with Username := ToLower T (TrimSpace username) }) := by
  rw [applyUsername_eq] at h
  cases hr : req.Username with
  | none =>
    simp only [hr, Except.ok.injEq] at h
    exact ⟨fun _ => h.symm, fun _ hn => nomatch hn⟩
  | some username =>
    simp only [hr] at h
    split at h
    · exact nomatch h
    · cases hv : validateUsername username with
      | some err => simp [hv] at h
      | none =>
        simp only [hv, Except.ok.injEq] at h
        refine ⟨fun hn => (nomatch hn), fun n hn => ?_⟩
        simp only [Option.some.injEq] at hn
        rw [← hn, ← h]
        rfl

/-! ## The step machine of `CreateUser` -/

/-- Run without interruption, the three steps of a call are the call `CreateUser`. -/
theorem CreateTask_uninterrupted (T : CaseTable) (r : MemoryUserRepository) (newID : UserID)
    (req : CreateUserRequest) :
    CreateTask.step T
        (CreateTask.step T (CreateTask.step T r (.atExistsByEmail newID req)).2
          (CreateTask.step T r (.atExistsByEmail newID req)).1).2
        (CreateTask.step T (CreateTask.step T r (.atExistsByEmail newID req)).2
          (CreateTask.step T r (.atExistsByEmail newID req)).1).1 =
      (.returned (UserService.CreateUser T r newID req).1,
        (UserService.CreateUser T r newID req).2) := by
  rw [CreateUser_unfold]
  unfold normalize
  cases hE : r.users.any (fun e => e.2.Email = ToLower T (TrimSpace req.Email)) with
  | true =>
    have s1 : CreateTask.step T r (.atExistsByEmail newID req) =
        (.returned (.error ErrEmailExists), r) := by
      simp only [CreateTask.step, MemoryUserRepository.ExistsByEmail, hE, if_true]
    rw [s1]
    simp only [CreateTask.step, if_true]
  | false =>
    have s1 : CreateTask.step T r (.atExistsByEmail newID req) =
        (.atExistsByUsername newID req, r) := by
      simp only [CreateTask.step, MemoryUserRepository.ExistsByEmail, hE,
        Bool.false_eq_true, if_false]
    rw [s1]
    cases hU : r.users.any (fun e => e.2.Username = ToLower T (TrimSpace req.Username)) with
    | true =>
      have s2 : CreateTask.step T r (.atExistsByUsername newID req) =
          (.returned (.error ErrUsernameExists), r) := by
        simp only [CreateTask.step, MemoryUserRepository.ExistsByUsername, hU, if_true]
      rw [s2]
      simp only [CreateTask.step, Bool.false_eq_true, if_false, if_true]
    | false =>
      have s2 : CreateTask.step T r (.atExistsByUsername newID req) =
          (.atSave newID req, r) := by
        simp only [CreateTask.step, MemoryUserRepository.ExistsByUsername, hU,
          Bool.false_eq_true, if_false]
      rw [s2]
      simp only [Bool.false_eq_true, if_false]
      cases hN : NewUser T newID req.Name req.Email req.Username with
      | error e => simp only [CreateTask.step, hN]
      | ok u => simp only [CreateTask.step, hN, MemoryUserRepository.Save]

/-! ## The existence checks of the two backends -/

theorem count_pos_eq_any {α : Type} (p : α → Bool) (l : List α) :
    decide (l.countP p > 0) = l.any p := by
  rw [Bool.eq_iff_iff]
  simp only [gt_iff_lt, decide_eq_true_eq, List.countP_pos_iff, List.any_eq_true]

theorem mongo_exists_eq (r : MemoryUserRepository) (k : GoString) :
    MongoUserRepository.ExistsByEmail (documentsOf r) k none =
      .ok (r.users.any (fun e => e.2.Email = k)) ∧
    MongoUserRepository.ExistsByUsername (documentsOf r) k none =
      .ok (r.users.any (fun e => e.2.Username = k)) := by
  have hmap : ∀ (p : mongoUser → Bool) (l : UserMap),
      (l.map (fun e => MongoUserRepository.document e.2)).any p =
        l.any (fun e => p (MongoUserRepository.document e.2)) := by
    intro p l
    induction l with
    | nil => rfl
    | cons a l ih => simp only [List.map_cons, List.any_cons, ih]
  simp only [MongoUserRepository.ExistsByEmail, MongoUserRepository.ExistsByUsername,
    CountDocuments, count_pos_eq_any, documentsOf, hmap]
  exact ⟨rfl, rfl⟩

/-- On a lookup key that is already in normal form the existence checks of the two
backends return the same boolean, on every population. -/
theorem exists_agree_on_normal_keys (T : CaseTable) (r : MemoryUserRepository)
    (k : GoString) (hk : ToLower T (TrimSpace k) = k) :
    (∃ b, MongoUserRepository.ExistsByEmail (documentsOf r) k none = .ok b ∧
      r.ExistsByEmail T k = .ok b) ∧
    (∃ b, MongoUserRepository.ExistsByUsername (documentsOf r) k none = .ok b ∧
      r.ExistsByUsername T k = .ok b) := by
  obtain ⟨h1, h2⟩ := mongo_exists_eq r k
  refine ⟨⟨_, h1, ?_⟩, ⟨_, h2, ?_⟩⟩
  · simp only [MemoryUserRepository.ExistsByEmail, hk]
  · simp only [MemoryUserRepository.ExistsByUsername, hk]

/-! ## The claims -/

/-- C2: create/read round trip on the volatile repository.  For every store state and
every request whose name, email and username pass `validateName`, `validateEmail` and
`validateUsername` and whose normalized email and normalized username are held by no
stored user, `CreateUser` succeeds, the returned ID is the generated one, and
`GetUserByID` on the returned ID succeeds with the same ID, `Name = TrimSpace(name)`,
`Email = ToLower(TrimSpace(email))` and `Username = ToLower(TrimSpace(username))`. -/
theorem create_get_round_trip (T : CaseTable) (r : MemoryUserRepository) (newID : UserID)
    (req : CreateUserRequest)
    (hn : validateName req.Name = none) (he : validateEmail req.Email = none)
    (hu : validateUsername req.Username = none)
    (hE : ∀ e ∈ r.users, e.2.Email ≠ ToLower T (TrimSpace req.Email))
    (hU : ∀ e ∈ r.users, e.2.Username ≠ ToLower T (TrimSpace req.Username)) :
    ∃ resp : UserResponse,
      (UserService.CreateUser T r newID req).1 = .ok resp ∧ resp.ID = newID ∧
      UserService.GetUserByID (UserService.CreateUser T r newID req).2 resp.ID =
        .ok { ID := resp.ID, Name := TrimSpace req.Name,
              Email := ToLower T (TrimSpace req.Email),
              Username := ToLower T (TrimSpace req.Username) } := by
  have hE1 : r.users.any (fun e => e.2.Email = normalize T req.Email) = false := by
    rw [List.any_eq_false]
    intro e hmem
    simpa [normalize] using hE e hmem
  have hU1 : r.users.any (fun e => e.2.Username = normalize T req.Username) = false := by
    rw [List.any_eq_false]
    intro e hmem
    simpa [normalize] using hU e hmem
  rw [CreateUser_unfold, hE1, hU1, NewUser_ok T newID hn he hu]
  refine ⟨_, rfl, rfl, ?_⟩
  simp only [Bool.false_eq_true, if_false, UserService.GetUserByID,
    MemoryUserRepository.GetByID, UserService.userToResponse, UserMap.lookup_store_self,
    normalize]

/-- Witness of C2: the first user created in the empty repository is read back in normal
form. -/
theorem create_get_round_trip_witness :
    ∃ resp : UserResponse,
      (UserService.CreateUser excerptCaseTable NewMemoryUserRepository "u1".toList
        ⟨" Alice ".toList, " Alice@B.com".toList, "Alice".toList⟩).1 = .ok resp ∧
      resp.ID = "u1".toList ∧
      UserService.GetUserByID (UserService.CreateUser excerptCaseTable NewMemoryUserRepository
        "u1".toList ⟨" Alice ".toList, " Alice@B.com".toList, "Alice".toList⟩).2 resp.ID =
        .ok { ID := resp.ID, Name := TrimSpace " Alice ".toList,
              Email := ToLower excerptCaseTable (TrimSpace " Alice@B.com".toList),
              Username := ToLower excerptCaseTable (TrimSpace "Alice".toList) } :=
  create_get_round_trip excerptCaseTable NewMemoryUserRepository "u1".toList
    ⟨" Alice ".toList, " Alice@B.com".toList, "Alice".toList⟩
    (by decide) (by decide) (by decide)
    (by intro e he; cases he) (by intro e he; cases he)

/-- C3: sequential duplicate-email create on the volatile repository.  For every store
state, if `CreateUser(req)` succeeds, then an immediately following `CreateUser(req2)`
whose email has the same normalized form `ToLower(TrimSpace(.))` returns
`ErrEmailExists`, whatever its name, username and generated ID are, and leaves the store
exactly as the first call left it. -/
theorem duplicate_email_create (T : CaseTable) (r : MemoryUserRepository)
    (newID : UserID) (req : CreateUserRequest) (resp : UserResponse)
    (newID2 : UserID) (req2 : CreateUserRequest)
    (hfirst : (UserService.CreateUser T r newID req).1 = .ok resp)
    (hsame : ToLower T (TrimSpace req2.Email) = ToLower T (TrimSpace req.Email)) :
    UserService.CreateUser T (UserService.CreateUser T r newID req).2 newID2 req2 =
      (.error ErrEmailExists, (UserService.CreateUser T r newID req).2) := by
  obtain ⟨_, _, _, _, _, hc⟩ := CreateUser_ok_inv T hfirst
  rw [hc, CreateUser_unfold]
  have hany : (r.users.store newID
      { ID := newID, Name := TrimSpace req.Name, Email := normalize T req.Email,
        Username := normalize T req.Username }).any
      (fun e => e.2.Email = normalize T req2.Email) = true := by
    rw [List.any_eq_true]
    refine ⟨_, UserMap.mem_store_self _ _ _, ?_⟩
    simp [normalize, hsame]
  simp only [hany, if_true]

/-- Witness of C3: `Create("Alice", "a@b.com", "alice")` twice in the empty repository. -/
theorem duplicate_email_create_witness :
    UserService.CreateUser excerptCaseTable
      (UserService.CreateUser excerptCaseTable NewMemoryUserRepository "u1".toList
        ⟨"Alice".toList, "a@b.com".toList, "alice".toList⟩).2 "u2".toList
        ⟨"Alice".toList, "a@b.com".toList, "alice".toList⟩ =
      (.error ErrEmailExists,
        (UserService.CreateUser excerptCaseTable NewMemoryUserRepository "u1".toList
          ⟨"Alice".toList, "a@b.com".toList, "alice".toList⟩).2) :=
  duplicate_email_create excerptCaseTable NewMemoryUserRepository "u1".toList
    ⟨"Alice".toList, "a@b.com".toList, "alice".toList⟩
    ⟨"u1".toList, "Alice".toList, "a@b.com".toList, "alice".toList⟩ "u2".toList
    ⟨"Alice".toList, "a@b.com".toList, "alice".toList⟩ (by decide) rfl

/-- C9: the per-field mutators are atomic on failure.  For every user `u` and every input,
if `UpdateName`, `UpdateEmail` or `UpdateUsername` returns an error, the error is
`ErrInvalidName`, `ErrInvalidEmail`, `ErrInvalidUsername` respectively, and the receiver
after the call equals `u`: its four fields ID, Name, Email, Username are what they were. -/
theorem mutators_atomic_on_failure (T : CaseTable) (u : User) (input : GoString) :
    (∀ err, (u.UpdateName input).1 = some err →
      err = ErrInvalidName ∧ (u.UpdateName input).2 = u) ∧
    (∀ err, (u.UpdateEmail T input).1 = some err →
      err = ErrInvalidEmail ∧ (u.UpdateEmail T input).2 = u) ∧
    (∀ err, (u.UpdateUsername T input).1 = some err →
      err = ErrInvalidUsername ∧ (u.UpdateUsername T input).2 = u) := by
  refine ⟨?_, ?_, ?_⟩
  · intro err h
    unfold User.UpdateName at h ⊢
    cases hv : validateName input with
    | none => rw [hv] at h; simp at h
    | some e =>
      rw [hv] at h
      simp only [Option.some.injEq] at h
      exact ⟨h ▸ validateName_err hv, rfl⟩
  · intro err h
    unfold User.UpdateEmail at h ⊢
    cases hv : validateEmail input with
    | none => rw [hv] at h; simp at h
    | some e =>
      rw [hv] at h
      simp only [Option.some.injEq] at h
      exact ⟨h ▸ validateEmail_err hv, rfl⟩
  · intro err h
    unfold User.UpdateUsername at h ⊢
    cases hv : validateUsername input with
    | none => rw [hv] at h; simp at h
    | some e =>
      rw [hv] at h
      simp only [Option.some.injEq] at h
      exact ⟨h ▸ validateUsername_err hv, rfl⟩

/-- Witness of C9: the three mutators fail on a blank name, on `not-an-email` and on `ab`,
and leave the user as it was. -/
theorem mutators_atomic_on_failure_witness :
    (User.UpdateName ⟨"u1".toList, "Alice".toList, "a@b.com".toList, "alice".toList⟩
      "  ".toList).2 = ⟨"u1".toList, "Alice".toList, "a@b.com".toList, "alice".toList⟩ ∧
    (User.UpdateEmail excerptCaseTable
      ⟨"u1".toList, "Alice".toList, "a@b.com".toList, "alice".toList⟩
      "not-an-email".toList).2 =
        ⟨"u1".toList, "Alice".toList, "a@b.com".toList, "alice".toList⟩ ∧
    (User.UpdateUsername excerptCaseTable
      ⟨"u1".toList, "Alice".toList, "a@b.com".toList, "alice".toList⟩
      "ab".toList).2 = ⟨"u1".toList, "Alice".toList, "a@b.com".toList, "alice".toList⟩ :=
  ⟨((mutators_atomic_on_failure excerptCaseTable
      ⟨"u1".toList, "Alice".toList, "a@b.com".toList, "alice".toList⟩ "  ".toList).1
      ErrInvalidName (by decide)).2,
   ((mutators_atomic_on_failure excerptCaseTable
      ⟨"u1".toList, "Alice".toList, "a@b.com".toList, "alice".toList⟩
      "not-an-email".toList).2.1 ErrInvalidEmail (by decide)).2,
   ((mutators_atomic_on_failure excerptCaseTable
      ⟨"u1".toList, "Alice".toList, "a@b.com".toList, "alice".toList⟩ "ab".toList).2.2
      ErrInvalidUsername (by decide)).2⟩

/-- C10: `NewUser` fails fast in the order name, email, username.  For all inputs it
returns `ErrInvalidName` whenever the name is empty or consists of white space only,
whatever the email and username are; `ErrInvalidEmail` whenever the name is valid and the
email is rejected by `validateEmail`, whatever the username is; `ErrInvalidUsername`
exactly when name and email are valid and the username is rejected; and a user exactly
when all three are valid.  (The result is either a user or an error, never both.) -/
theorem NewUser_fail_fast (T : CaseTable) (newID : UserID) (name email username : GoString) :
    ((∀ c ∈ name, unicodeIsSpace c = true) →
      NewUser T newID name email username = .error ErrInvalidName) ∧
    (¬ (∀ c ∈ name, unicodeIsSpace c = true) → validateEmail email ≠ none →
      NewUser T newID name email username = .error ErrInvalidEmail) ∧
    (NewUser T newID name email username = .error ErrInvalidUsername ↔
      ¬ (∀ c ∈ name, unicodeIsSpace c = true) ∧ validateEmail email = none ∧
        validateUsername username ≠ none) ∧
    ((∃ u, NewUser T newID name email username = .ok u) ↔
      ¬ (∀ c ∈ name, unicodeIsSpace c = true) ∧ validateEmail email = none ∧
        validateUsername username = none) := by
  have hv := validateName_eq name
  by_cases hn : ∀ c ∈ name, unicodeIsSpace c = true
  · rw [if_pos hn] at hv
    have hN : NewUser T newID name email username = .error ErrInvalidName := by
      simp [NewUser, hv]
    rw [hN]
    refine ⟨fun _ => rfl, fun h => absurd hn h, ⟨fun h => ?_, fun h => absurd hn h.1⟩,
      ⟨fun h => ?_, fun h => absurd hn h.1⟩⟩
    · simp at h
    · obtain ⟨u, hu⟩ := h
      simp at hu
  · rw [if_neg hn] at hv
    cases he : validateEmail email with
    | some e =>
      have hee := validateEmail_err he
      subst hee
      have hN : NewUser T newID name email username = .error ErrInvalidEmail := by
        simp [NewUser, hv, he]
      rw [hN]
      refine ⟨fun h => absurd h hn, fun _ _ => rfl, ⟨fun h => ?_, fun h => ?_⟩,
        ⟨fun h => ?_, fun h => ?_⟩⟩
      · simp at h
      · simp at h
      · obtain ⟨u, hu⟩ := h
        simp at hu
      · simp at h
    | none =>
      cases hu : validateUsername username with
      | some e =>
        have hee := validateUsername_err hu
        subst hee
        have hN : NewUser T newID name email username = .error ErrInvalidUsername := by
          simp [NewUser, hv, he, hu]
        rw [hN]
        refine ⟨fun h => absurd h hn, fun _ h => absurd rfl h, ⟨fun _ => ⟨hn, rfl, by simp⟩,
          fun _ => rfl⟩, ⟨fun h => ?_, fun h => ?_⟩⟩
        · obtain ⟨u, hu⟩ := h
          simp at hu
        · simp at h
      | none =>
        rw [NewUser_ok T newID hv he hu]
        refine ⟨fun h => absurd h hn, fun _ h => absurd rfl h, ⟨fun h => ?_, fun h => ?_⟩,
          ⟨fun _ => ⟨hn, rfl, rfl⟩, fun _ => ⟨_, rfl⟩⟩⟩
        · simp at h
        · simp at h

/-- C8: email acceptance equals the address grammar.  For every string `e`,
`validateEmail` succeeds if and only if `TrimSpace(e) = L ++ "@" ++ D ++ "." ++ T` with `L`
a non-empty string over `[a-zA-Z0-9._%+-]`, `D` a non-empty string over `[a-zA-Z0-9.-]`
and `T` a string of at least two ASCII letters; otherwise the error is `ErrInvalidEmail`.
The same holds for `NewUser` with a valid name (it fails with `ErrInvalidEmail` exactly
when the grammar is not met) and for `UpdateEmail`.  Every accepted email contains exactly
one `@`, and every string without `@` is rejected.  `not-an-email` is rejected and
`a@b.co` is accepted. -/
theorem validateEmail_iff_grammar :
    (∀ e : GoString,
      (validateEmail e = none ↔ AddressGrammar (TrimSpace e)) ∧
      (validateEmail e ≠ none → validateEmail e = some ErrInvalidEmail) ∧
      (validateEmail e = none → e.count '@' = 1) ∧
      ('@' ∉ e → validateEmail e = some ErrInvalidEmail) ∧
      (∀ (T : CaseTable) (newID : UserID) (name username : GoString),
        validateName name = none →
        (NewUser T newID name e username = .error ErrInvalidEmail ↔
          ¬ AddressGrammar (TrimSpace e))) ∧
      (∀ (T : CaseTable) (u : User),
        ((u.UpdateEmail T e).1 = none ↔ AddressGrammar (TrimSpace e)) ∧
        ((u.UpdateEmail T e).1 ≠ none → (u.UpdateEmail T e).1 = some ErrInvalidEmail))) ∧
    validateEmail "not-an-email".toList = some ErrInvalidEmail ∧
    validateEmail "a@b.co".toList = none := by
  refine ⟨fun e => ?_, by decide, by decide⟩
  have herr : validateEmail e ≠ none → validateEmail e = some ErrInvalidEmail := by
    intro h
    cases hv : validateEmail e with
    | none => exact absurd hv h
    | some err => rw [validateEmail_err hv]
  have hcount : validateEmail e = none → e.count '@' = 1 := by
    intro h
    rw [← count_at_TrimSpace]
    exact count_at_of_grammar ((validateEmail_none_iff e).mp h)
  refine ⟨validateEmail_none_iff e, herr, hcount, ?_, ?_, ?_⟩
  · intro hat
    apply herr
    intro h
    have h1 := hcount h
    have h0 : e.count '@' = 0 := List.count_eq_zero.mpr hat
    omega
  · intro T newID name username hn
    rw [← validateEmail_none_iff]
    cases hv : validateEmail e with
    | some err =>
      have := validateEmail_err hv
      subst this
      simp [NewUser, hn, hv]
    | none =>
      cases hu : validateUsername username with
      | some err =>
        have := validateUsername_err hu
        subst this
        simp [NewUser, hn, hv, hu]
      | none => simp [NewUser, hn, hv, hu]
  · intro T u
    rw [← validateEmail_none_iff]
    unfold User.UpdateEmail
    cases hv : validateEmail e with
    | some err =>
      have := validateEmail_err hv
      subst this
      simp
    | none => simp

/-- C1: uniqueness invariant of the service over the volatile repository under sequential
calls.  In every store state reached from the empty repository by a finite sequence of
`CreateUser`, `UpdateUser` and `DeleteUser` calls in which every generated UserID differs
from the ones generated before, no two stored users with different IDs have equal Email,
and no two have equal Username. -/
theorem unique_email_username_reachable (T : CaseTable) (calls : List Call)
    (hfresh : (generatedIDs calls).Nodup) :
    UniqueEmailUsername (run T NewMemoryUserRepository calls) := by
  have hinv : StoreInv T (run T NewMemoryUserRepository calls) :=
    StoreInv_of_reachable ⟨calls, hfresh, rfl⟩
  intro e1 he1 e2 he2 hne
  apply hinv.2.2 e1 he1 e2 he2
  rw [hinv.1 e1 he1, hinv.1 e2 he2]
  exact hne

/-- Witness of C1: a run of six calls with three distinct generated IDs ends in a store
with unique emails and usernames. -/
theorem unique_email_username_reachable_witness :
    (generatedIDs sampleCalls).Nodup ∧
    UniqueEmailUsername (run excerptCaseTable NewMemoryUserRepository sampleCalls) :=
  ⟨by decide, unique_email_username_reachable excerptCaseTable sampleCalls (by decide)⟩

/-- C4, evaluated at the failing input.  The state holding the single user `u1` with email
`a@b.com` and username `alice` is reachable and holds no user with another ID; yet
`UpdateUser(u1, Email: "A@B.com")` returns `ErrEmailExists` and
`UpdateUser(u1, Username: " alice")` returns `ErrUsernameExists`: the guard compares the
stored value with the request as typed, not with its normalized form. -/
theorem update_own_email_in_upper_case_is_rejected :
    Reachable excerptCaseTable aliceRepo ∧
    aliceRepo.users.lookup "u1".toList =
      some ⟨"u1".toList, "Alice".toList, "a@b.com".toList, "alice".toList⟩ ∧
    (∀ e ∈ aliceRepo.users, e.2.ID = "u1".toList) ∧
    ToLower excerptCaseTable (TrimSpace "A@B.com".toList) = "a@b.com".toList ∧
    UserService.UpdateUser excerptCaseTable aliceRepo "u1".toList
      ⟨none, some "A@B.com".toList, none⟩ = (.error ErrEmailExists, aliceRepo) ∧
    ToLower excerptCaseTable (TrimSpace " alice".toList) = "alice".toList ∧
    UserService.UpdateUser excerptCaseTable aliceRepo "u1".toList
      ⟨none, none, some " alice".toList⟩ = (.error ErrUsernameExists, aliceRepo) :=
  ⟨⟨[.create "u1".toList aliceRequest], by decide, rfl⟩, by decide, by decide, by decide,
    by decide, by decide, by decide⟩

/-- C5, evaluated at the failing input.  After `Create("Kelvin", "k@b.co", "K")` the
stored username is `k`, and `UpdateUser(u1, Username: "k")`, the user's own stored
username, returns `ErrInvalidUsername` instead of succeeding. -/
theorem update_to_own_username_is_rejected :
    Reachable excerptCaseTable kelvinRepo ∧
    kelvinRepo.users.lookup "u1".toList =
      some ⟨"u1".toList, "Kelvin".toList, "k@b.co".toList, "k".toList⟩ ∧
    UserService.UpdateUser excerptCaseTable kelvinRepo "u1".toList
      ⟨none, none, some "k".toList⟩ = (.error ErrInvalidUsername, kelvinRepo) :=
  ⟨⟨[.create "u1".toList ⟨"Kelvin".toList, "k@b.co".toList, [kelvinSign]⟩], by decide, rfl⟩,
    by decide, by decide⟩

/-- C6, evaluated at the failing input.  `NewUser("Kelvin", "k@b.co", "K")` succeeds
and `UpdateUsername("K")` succeeds; in both the stored username is `k`, whose length
after `TrimSpace` is 1, so the stored username does not pass `validateUsername`. -/
theorem stored_username_can_be_too_short :
    NewUser excerptCaseTable "u1".toList "Kelvin".toList "k@b.co".toList [kelvinSign] =
      .ok ⟨"u1".toList, "Kelvin".toList, "k@b.co".toList, "k".toList⟩ ∧
    User.UpdateUsername excerptCaseTable
      ⟨"u1".toList, "Alice".toList, "a@b.com".toList, "alice".toList⟩ [kelvinSign] =
      (none, ⟨"u1".toList, "Alice".toList, "a@b.com".toList, "k".toList⟩) ∧
    len (TrimSpace "k".toList) = 1 ∧
    validateUsername "k".toList = some ErrInvalidUsername := by
  decide

/-- C7, evaluated at the failing input.  The username made of the single code point U+65E5
has fewer than 3 characters after `TrimSpace`, but 3 bytes: `validateUsername`, `NewUser`
and `UpdateUsername` accept it.  On `ab` and `abc` the code does what the claim says. -/
theorem one_character_username_is_accepted :
    runeCount (TrimSpace [sunIdeograph]) = 1 ∧ len (TrimSpace [sunIdeograph]) = 3 ∧
    validateUsername [sunIdeograph] = none ∧
    NewUser excerptCaseTable "u1".toList "Alice".toList "a@b.co".toList [sunIdeograph] =
      .ok ⟨"u1".toList, "Alice".toList, "a@b.co".toList, [sunIdeograph]⟩ ∧
    (User.UpdateUsername excerptCaseTable
      ⟨"u1".toList, "Alice".toList, "a@b.com".toList, "alice".toList⟩ [sunIdeograph]).1 =
      none ∧
    validateUsername "ab".toList = some ErrInvalidUsername ∧
    validateUsername "abc".toList = none := by
  decide

/-- C11: delete is strict, not idempotent-success (service over the volatile repository).
For every store state and ID, `DeleteUser` returns `ErrUserNotFound` and leaves the store
unchanged when the ID is absent; when the ID is present it succeeds, after which
`GetUserByID` of that ID returns `ErrUserNotFound` and a second `DeleteUser` of that ID
returns `ErrUserNotFound`.  The other IDs are not touched. -/
theorem delete_is_strict (r : MemoryUserRepository) (id : GoString) (hwf : WellFormed r) :
    (r.users.lookup id = none → UserService.DeleteUser r id = (some ErrUserNotFound, r)) ∧
    (r.users.lookup id ≠ none →
      (UserService.DeleteUser r id).1 = none ∧
      UserService.GetUserByID (UserService.DeleteUser r id).2 id = .error ErrUserNotFound ∧
      UserService.DeleteUser (UserService.DeleteUser r id).2 id =
        (some ErrUserNotFound, (UserService.DeleteUser r id).2) ∧
      ∀ k, k ≠ id → (UserService.DeleteUser r id).2.users.lookup k = r.users.lookup k) := by
  constructor
  · intro h
    simp only [UserService.DeleteUser, MemoryUserRepository.GetByID, h]
  · intro h
    cases hl : r.users.lookup id with
    | none => exact absurd hl h
    | some u =>
      have hd : UserService.DeleteUser r id = (none, ⟨r.users.remove id⟩) := by
        simp only [UserService.DeleteUser, MemoryUserRepository.GetByID,
          MemoryUserRepository.Delete, hl]
      have hgone : (r.users.remove id).lookup id = none :=
        UserMap.lookup_remove_self id hwf.1
      rw [hd]
      refine ⟨rfl, ?_, ?_, fun k hk => UserMap.lookup_remove_ne r.users hk⟩
      · simp only [UserService.GetUserByID, MemoryUserRepository.GetByID, hgone]
      · simp only [UserService.DeleteUser, MemoryUserRepository.GetByID, hgone]

/-- Witness of C11: deleting the only user of the repository, reading it and deleting it
again. -/
theorem delete_is_strict_witness :
    WellFormed aliceRepo ∧ aliceRepo.users.lookup "u1".toList ≠ none ∧
    (UserService.DeleteUser aliceRepo "u1".toList).1 = none ∧
    UserService.GetUserByID (UserService.DeleteUser aliceRepo "u1".toList).2 "u1".toList =
      .error ErrUserNotFound ∧
    UserService.DeleteUser (UserService.DeleteUser aliceRepo "u1".toList).2 "u1".toList =
      (some ErrUserNotFound, (UserService.DeleteUser aliceRepo "u1".toList).2) :=
  have hwf : WellFormed aliceRepo :=
    WellFormed_of_reachable ⟨[.create "u1".toList aliceRequest], by decide, rfl⟩
  have h := (delete_is_strict aliceRepo "u1".toList hwf).2 (by decide)
  ⟨hwf, by decide, h.1, h.2.1, h.2.2.1⟩

/-- C12: `CreateUser` checks uniqueness before validation, email before username.  For
every store state and request it returns `ErrEmailExists` if the normalized email is held
by a stored user, whatever the rest of the request is; otherwise `ErrUsernameExists` if
the normalized username is held by a stored user; otherwise the validation error of
`NewUser`, if any; otherwise it saves the new user and succeeds.  In every error case the
store is unchanged. -/
theorem create_checks_in_order (T : CaseTable) (r : MemoryUserRepository) (newID : UserID)
    (req : CreateUserRequest) :
    ((∃ e ∈ r.users, e.2.Email = ToLower T (TrimSpace req.Email)) →
      UserService.CreateUser T r newID req = (.error ErrEmailExists, r)) ∧
    (¬ (∃ e ∈ r.users, e.2.Email = ToLower T (TrimSpace req.Email)) →
      (∃ e ∈ r.users, e.2.Username = ToLower T (TrimSpace req.Username)) →
      UserService.CreateUser T r newID req = (.error ErrUsernameExists, r)) ∧
    (¬ (∃ e ∈ r.users, e.2.Email = ToLower T (TrimSpace req.Email)) →
      ¬ (∃ e ∈ r.users, e.2.Username = ToLower T (TrimSpace req.Username)) →
      (∀ err, NewUser T newID req.Name req.Email req.Username = .error err →
        UserService.CreateUser T r newID req = (.error err, r)) ∧
      (∀ user, NewUser T newID req.Name req.Email req.Username = .ok user →
        UserService.CreateUser T r newID req =
          (.ok (UserService.userToResponse user), (r.Save user).2))) ∧
    (∀ err, (UserService.CreateUser T r newID req).1 = .error err →
      (UserService.CreateUser T r newID req).2 = r) := by
  have hanyE : r.users.any (fun e => e.2.Email = normalize T req.Email) = true ↔
      ∃ e ∈ r.users, e.2.Email = ToLower T (TrimSpace req.Email) := by
    rw [List.any_eq_true]
    simp only [normalize, decide_eq_true_eq]
  have hanyU : r.users.any (fun e => e.2.Username = normalize T req.Username) = true ↔
      ∃ e ∈ r.users, e.2.Username = ToLower T (TrimSpace req.Username) := by
    rw [List.any_eq_true]
    simp only [normalize, decide_eq_true_eq]
  refine ⟨?_, ?_, ?_, ?_⟩
  · intro h
    rw [CreateUser_unfold, if_pos (hanyE.mpr h)]
  · intro h1 h2
    rw [CreateUser_unfold, if_neg (fun h => h1 (hanyE.mp h)), if_pos (hanyU.mpr h2)]
  · intro h1 h2
    rw [CreateUser_unfold, if_neg (fun h => h1 (hanyE.mp h)),
      if_neg (fun h => h2 (hanyU.mp h))]
    constructor
    · intro err he
      rw [he]
    · intro user he
      rw [he]
      rfl
  · intro err h
    rcases CreateUser_cases T r newID req with ⟨e, he⟩ | ⟨resp, he⟩
    · rw [he]
    · rw [he] at h
      exact nomatch h

/-- C13: the volatile `Save` is an unconditional upsert by ID.  For every store state and
user, `Save` returns no error and yields a store that maps `user.ID` to that user and is
unchanged at every other ID, whatever emails and usernames are stored; when `user.ID` is
already present the keys of the store are unchanged (the old entry is replaced), and when
it is absent one entry is added. -/
theorem save_is_upsert (r : MemoryUserRepository) (user : User) :
    (r.Save user).1 = none ∧
    (r.Save user).2.users.lookup user.ID = some user ∧
    (∀ id, id ≠ user.ID → (r.Save user).2.users.lookup id = r.users.lookup id) ∧
    (r.users.lookup user.ID ≠ none → (r.Save user).2.users.keys = r.users.keys) ∧
    (r.users.lookup user.ID = none → (r.Save user).2.users = r.users ++ [(user.ID, user)]) := by
  refine ⟨rfl, UserMap.lookup_store_self _ _ _,
    fun id hid => UserMap.lookup_store_ne r.users user hid, ?_, ?_⟩
  · intro h
    have hm : user.ID ∈ UserMap.keys r.users := by
      by_contra hn
      exact h ((UserMap.lookup_eq_none_iff _ _).mpr hn)
    exact UserMap.keys_store_of_mem r.users user hm
  · intro h
    exact UserMap.store_of_not_mem r.users user ((UserMap.lookup_eq_none_iff _ _).mp h)

/-- C14: the volatile `Update` requires presence.  For every store state and user,
`Update` returns `ErrUserNotFound` and leaves the store unchanged (it does not insert) when
`user.ID` is absent; when `user.ID` is present it succeeds, replaces the entry at
`user.ID` and leaves every other entry and the stored IDs unchanged.  Consequently
`UserService.UpdateUser` on an absent ID returns `ErrUserNotFound` for every request. -/
theorem update_requires_presence (T : CaseTable) (r : MemoryUserRepository) (user : User) :
    (r.users.lookup user.ID = none → r.Update user = (some ErrUserNotFound, r)) ∧
    (r.users.lookup user.ID ≠ none →
      (r.Update user).1 = none ∧
      (r.Update user).2.users.lookup user.ID = some user ∧
      (∀ id, id ≠ user.ID → (r.Update user).2.users.lookup id = r.users.lookup id) ∧
      (r.Update user).2.users.keys = r.users.keys) ∧
    (∀ (id : GoString) (req : UpdateUserRequest), r.users.lookup id = none →
      UserService.UpdateUser T r id req = (.error ErrUserNotFound, r)) := by
  refine ⟨?_, ?_, ?_⟩
  · intro h
    simp only [MemoryUserRepository.Update, h]
  · intro h
    cases hl : r.users.lookup user.ID with
    | none => exact absurd hl h
    | some w =>
      have hm : user.ID ∈ UserMap.keys r.users := by
        by_contra hn
        exact h ((UserMap.lookup_eq_none_iff _ _).mpr hn)
      simp only [MemoryUserRepository.Update, hl]
      exact ⟨trivial, UserMap.lookup_store_self _ _ _,
        fun id hid => UserMap.lookup_store_ne r.users user hid,
        UserMap.keys_store_of_mem r.users user hm⟩
  · intro id req h
    simp only [UserService.UpdateUser, MemoryUserRepository.GetByID, h]

/-- C15: `GetAll` is total and complete on the volatile repository.  For every store state
`GetAll` returns no error and a sequence with exactly one element per stored user: its
length is the number of stored IDs, it has no repetition, and its elements are the values
stored under some ID; `GetAllUsers` returns the responses of these users; on the empty store
the result is the empty sequence. -/
theorem getAll_total_complete (r : MemoryUserRepository) (hwf : WellFormed r) :
    ∃ users : List User, r.GetAll = .ok users ∧
      users.length = r.users.keys.length ∧ users.Nodup ∧
      (∀ u, u ∈ users ↔ ∃ id, r.users.lookup id = some u) ∧
      UserService.GetAllUsers r = .ok (users.map UserService.userToResponse) ∧
      (r.users = [] → users = []) := by
  refine ⟨r.users.map (fun e : UserID × User => e.2), rfl, ?_, ?_, ?_, rfl, ?_⟩
  · simp only [UserMap.keys, List.length_map]
  · have hk : (r.users.map (fun e => e.2)).map (fun u => u.ID) = UserMap.keys r.users := by
      rw [List.map_map]
      apply List.map_congr_left
      intro e he
      exact (hwf.2 e he).symm
    exact List.Nodup.of_map (fun u => u.ID) (hk ▸ hwf.1)
  · intro u
    constructor
    · intro hu
      obtain ⟨e, he, rfl⟩ := List.mem_map.mp hu
      exact ⟨e.1, (UserMap.mem_iff_lookup hwf.1 e.1 e.2).mp he⟩
    · rintro ⟨id, hid⟩
      exact List.mem_map.mpr ⟨(id, u), UserMap.lookup_some_mem hid, rfl⟩
  · intro h
    rw [h]
    rfl

/-- Witness of C15: on the empty repository `GetAll` returns the empty sequence, with no
error. -/
theorem getAll_total_complete_witness :
    WellFormed NewMemoryUserRepository ∧
    ∃ users : List User, NewMemoryUserRepository.GetAll = .ok users ∧
      users.length = NewMemoryUserRepository.users.keys.length ∧ users.Nodup ∧
      (∀ u, u ∈ users ↔ ∃ id, NewMemoryUserRepository.users.lookup id = some u) ∧
      UserService.GetAllUsers NewMemoryUserRepository =
        .ok (users.map UserService.userToResponse) ∧
      (NewMemoryUserRepository.users = [] → users = []) :=
  ⟨WellFormed_empty, getAll_total_complete NewMemoryUserRepository WellFormed_empty⟩

/-- C18: `UpdateUser` is all-or-nothing on the volatile repository.  For every store state,
ID and update request, if `UpdateUser` returns an error, the store is exactly what it was
before the call, also when an earlier field of the request had been applied to the fetched
copy before a later field failed. -/
theorem update_is_all_or_nothing (T : CaseTable) (r : MemoryUserRepository) (id : GoString)
    (req : UpdateUserRequest) (err : Error)
    (h : (UserService.UpdateUser T r id req).1 = .error err) :
    (UserService.UpdateUser T r id req).2 = r := by
  rcases UpdateUser_cases T r id req with ⟨e, he⟩ | ⟨u, u1, u2, u3, _, _, _, _, _, he⟩
  · rw [he]
  · rw [he] at h
    exact nomatch h

/-- Witness of C18: a request with a valid name and an invalid email fails with
`ErrInvalidEmail` after the name was applied to the copy; the store is unchanged. -/
theorem update_is_all_or_nothing_witness :
    (UserService.UpdateUser excerptCaseTable aliceRepo "u1".toList
      ⟨some "Bob".toList, some "not-an-email".toList, none⟩).1 = .error ErrInvalidEmail ∧
    UserService.applyName ⟨some "Bob".toList, some "not-an-email".toList, none⟩
      ⟨"u1".toList, "Alice".toList, "a@b.com".toList, "alice".toList⟩ =
      .ok ⟨"u1".toList, "Bob".toList, "a@b.com".toList, "alice".toList⟩ ∧
    (UserService.UpdateUser excerptCaseTable aliceRepo "u1".toList
      ⟨some "Bob".toList, some "not-an-email".toList, none⟩).2 = aliceRepo :=
  ⟨by decide, by decide,
    update_is_all_or_nothing excerptCaseTable aliceRepo "u1".toList
      ⟨some "Bob".toList, some "not-an-email".toList, none⟩ ErrInvalidEmail (by decide)⟩

/-- C19: the mutators change only their own field and never the ID.  A successful
`UpdateName` sets Name to `TrimSpace(input)`, a successful `UpdateEmail` sets Email to
`ToLower(TrimSpace(input))`, a successful `UpdateUsername` sets Username to
`ToLower(TrimSpace(input))`, and each leaves the other three fields unchanged.
Consequently a successful `UserService.UpdateUser(id, req)` stores under `id` a user whose
ID is still `id`, whose fields absent from `req` are unchanged and whose fields present in
`req` are the normalized requested values; it returns that user and leaves the other IDs
as they were. -/
theorem mutators_change_only_their_field (T : CaseTable) :
    (∀ (u : User) (input : GoString), (u.UpdateName input).1 = none →
      (u.UpdateName input).2 = { u with Name := TrimSpace input }) ∧
    (∀ (u : User) (input : GoString), (u.UpdateEmail T input).1 = none →
      (u.UpdateEmail T input).2 = { u with Email := ToLower T (TrimSpace input) }) ∧
    (∀ (u : User) (input : GoString), (u.UpdateUsername T input).1 = none →
      (u.UpdateUsername T input).2 = { u with Username := ToLower T (TrimSpace input) }) ∧
    (∀ (r : MemoryUserRepository) (id : GoString) (req : UpdateUserRequest)
      (resp : UserResponse), WellFormed r →
      (UserService.UpdateUser T r id req).1 = .ok resp →
      ∃ old new : User, r.users.lookup id = some old ∧
        (UserService.UpdateUser T r id req).2.users.lookup id = some new ∧
        resp = UserService.userToResponse new ∧ new.ID = id ∧
        (req.Name = none → new.Name = old.Name) ∧
        (req.Email = none → new.Email = old.Email) ∧
        (req.Username = none → new.Username = old.Username) ∧
        (∀ name, req.Name = some name → new.Name = TrimSpace name) ∧
        (∀ email, req.Email = some email → new.Email = ToLower T (TrimSpace email)) ∧
        (∀ username, req.Username = some username →
          new.Username = ToLower T (TrimSpace username)) ∧
        (∀ k, k ≠ id →
          (UserService.UpdateUser T r id req).2.users.lookup k = r.users.lookup k)) := by
  refine ⟨?_, ?_, ?_, ?_⟩
  · intro u input h
    unfold User.UpdateName at h ⊢
    cases hv : validateName input with
    | some err => simp [hv] at h
    | none => rfl
  · intro u input h
    unfold User.UpdateEmail at h ⊢
    cases hv : validateEmail input with
    | some err => simp [hv] at h
    | none => rfl
  · intro u input h
    unfold User.UpdateUsername at h ⊢
    cases hv : validateUsername input with
    | some err => simp [hv] at h
    | none => rfl
  · intro r id req resp hwf h
    rcases UpdateUser_cases T r id req with ⟨e, he⟩ | ⟨u, u1, u2, u3, hl, h1, h2, h3, _, he⟩
    · rw [he] at h
      exact nomatch h
    · rw [he] at h ⊢
      simp only [Except.ok.injEq] at h
      have hid : id = u.ID := hwf.2 _ (UserMap.lookup_some_mem hl)
      obtain ⟨a1, a2, a3⟩ := applyName_ok h1
      obtain ⟨b1, b2, b3, _⟩ := applyEmail_ok h2
      obtain ⟨c1, c2, c3, _⟩ := applyUsername_ok h3
      obtain ⟨n1, n2⟩ := applyName_result h1
      obtain ⟨e1, e2⟩ := applyEmail_result h2
      obtain ⟨w1, w2⟩ := applyUsername_result h3
      have hID : u3.ID = id := by rw [c1, b1, a1, hid]
      refine ⟨u, u3, hl, ?_, h.symm, hID, ?_, ?_, ?_, ?_, ?_, ?_, ?_⟩
      · rw [← hID]
        exact UserMap.lookup_store_self _ _ _
      · intro hn
        rw [c2, b2, n1 hn]
      · intro hn
        rw [c3, e1 hn, a2]
      · intro hn
        rw [w1 hn, b3, a3]
      · intro name hn
        rw [c2, b2, n2 name hn]
      · intro email hn
        rw [c3, e2 email hn]
      · intro username hn
        rw [w2 username hn]
      · intro k hk
        rw [← hID] at hk
        exact UserMap.lookup_store_ne r.users u3 hk

/-- C20: the volatile lookups normalize the key and agree with each other.  For every store
state and string `k`, `ExistsByEmail(k)` returns no error and is true if and only if some
stored user has `Email = ToLower(TrimSpace(k))`; `GetByEmail(k)` succeeds if and only if
`ExistsByEmail(k)` is true, in which case the returned user is a stored user with that
Email, and otherwise it returns `ErrUserNotFound`; the same holds for `ExistsByUsername`
and `GetByUsername` with Username.  (The four operations only read the store.) -/
theorem lookups_normalize_and_agree (T : CaseTable) (r : MemoryUserRepository)
    (k : GoString) :
    ((∃ b, r.ExistsByEmail T k = .ok b) ∧
      (r.ExistsByEmail T k = .ok true ↔
        ∃ e ∈ r.users, e.2.Email = ToLower T (TrimSpace k)) ∧
      ((∃ u, r.GetByEmail T k = .ok u) ↔ r.ExistsByEmail T k = .ok true) ∧
      (∀ u, r.GetByEmail T k = .ok u →
        u.Email = ToLower T (TrimSpace k) ∧ (∃ e ∈ r.users, e.2 = u) ∧
        (WellFormed r → r.GetByID u.ID = .ok u)) ∧
      (r.ExistsByEmail T k ≠ .ok true → r.GetByEmail T k = .error ErrUserNotFound)) ∧
    ((∃ b, r.ExistsByUsername T k = .ok b) ∧
      (r.ExistsByUsername T k = .ok true ↔
        ∃ e ∈ r.users, e.2.Username = ToLower T (TrimSpace k)) ∧
      ((∃ u, r.GetByUsername T k = .ok u) ↔ r.ExistsByUsername T k = .ok true) ∧
      (∀ u, r.GetByUsername T k = .ok u →
        u.Username = ToLower T (TrimSpace k) ∧ (∃ e ∈ r.users, e.2 = u) ∧
        (WellFormed r → r.GetByID u.ID = .ok u)) ∧
      (r.ExistsByUsername T k ≠ .ok true →
        r.GetByUsername T k = .error ErrUserNotFound)) := by
  have key : ∀ (f : User → GoString) (v : GoString),
      ((r.users.any (fun e => f e.2 = v) = true) ↔ ∃ e ∈ r.users, f e.2 = v) ∧
      (∀ e, r.users.find? (fun e => f e.2 = v) = some e →
        f e.2 = v ∧ e ∈ r.users ∧ (WellFormed r → r.GetByID e.2.ID = .ok e.2)) ∧
      (r.users.find? (fun e => f e.2 = v) = none ↔
        r.users.any (fun e => f e.2 = v) = false) := by
    intro f v
    refine ⟨?_, ?_, ?_⟩
    · rw [List.any_eq_true]
      simp only [decide_eq_true_eq]
    · intro e he
      have hp := List.find?_some he
      have hm := List.mem_of_find?_eq_some he
      refine ⟨by simpa using hp, hm, fun hwf => ?_⟩
      have hkey := hwf.2 e hm
      have hl : r.users.lookup e.2.ID = some e.2 :=
        (UserMap.mem_iff_lookup hwf.1 e.2.ID e.2).mp (by rw [← hkey]; exact hm)
      simp only [MemoryUserRepository.GetByID, hl]
    · rw [List.find?_eq_none, List.any_eq_false]
  constructor
  · obtain ⟨k1, k2, k3⟩ := key (fun u => u.Email) (ToLower T (TrimSpace k))
    simp only [MemoryUserRepository.ExistsByEmail, MemoryUserRepository.GetByEmail,
      Except.ok.injEq]
    refine ⟨⟨_, rfl⟩, k1, ?_, ?_, ?_⟩
    · cases hf : r.users.find? (fun e => e.2.Email = ToLower T (TrimSpace k)) with
      | none =>
        rw [k3.mp hf]
        simp
      | some e =>
        have hany := k1.mpr ⟨e, (k2 e hf).2.1, (k2 e hf).1⟩
        rw [hany]
        simp
    · intro u hu
      cases hf : r.users.find? (fun e => e.2.Email = ToLower T (TrimSpace k)) with
      | none => simp [hf] at hu
      | some e =>
        simp only [hf, Except.ok.injEq] at hu
        subst hu
        exact ⟨(k2 e hf).1, ⟨e, (k2 e hf).2.1, rfl⟩, (k2 e hf).2.2⟩
    · intro hne
      have hfalse : r.users.any (fun e => e.2.Email = ToLower T (TrimSpace k)) = false :=
        Bool.eq_false_iff.mpr (fun h => hne (congrArg Except.ok h))
      rw [k3.mpr hfalse]
  · obtain ⟨k1, k2, k3⟩ := key (fun u => u.Username) (ToLower T (TrimSpace k))
    simp only [MemoryUserRepository.ExistsByUsername, MemoryUserRepository.GetByUsername,
      Except.ok.injEq]
    refine ⟨⟨_, rfl⟩, k1, ?_, ?_, ?_⟩
    · cases hf : r.users.find? (fun e => e.2.Username = ToLower T (TrimSpace k)) with
      | none =>
        rw [k3.mp hf]
        simp
      | some e =>
        have hany := k1.mpr ⟨e, (k2 e hf).2.1, (k2 e hf).1⟩
        rw [hany]
        simp
    · intro u hu
      cases hf : r.users.find? (fun e => e.2.Username = ToLower T (TrimSpace k)) with
      | none => simp [hf] at hu
      | some e =>
        simp only [hf, Except.ok.injEq] at hu
        subst hu
        exact ⟨(k2 e hf).1, ⟨e, (k2 e hf).2.1, rfl⟩, (k2 e hf).2.2⟩
    · intro hne
      have hfalse : r.users.any (fun e => e.2.Username = ToLower T (TrimSpace k)) = false :=
        Bool.eq_false_iff.mpr (fun h => hne (congrArg Except.ok h))
      rw [k3.mpr hfalse]

/-- C16: result classification of the persistent repository, the driver outcome being an
input.  `Update` returns `ErrEmailExists` when the driver reports a duplicate-key error, a
wrapped storage error (not nil, not a domain error such as `ErrUserNotFound`) on any other
driver error, `ErrUserNotFound` when the driver reports no error and `MatchedCount = 0`,
and nil otherwise; `Delete` returns `ErrUserNotFound` when the driver reports no error and
`DeletedCount = 0`; `Save` returns `ErrEmailExists` on every duplicate-key error,
whichever unique index was violated. -/
theorem mongo_result_classification (user : User) (id : UserID) :
    (∀ err, IsDuplicateKeyError err = true →
      MongoUserRepository.Update user (.error err) = some (.domain ErrEmailExists)) ∧
    (∀ err, IsDuplicateKeyError err = false →
      MongoUserRepository.Update user (.error err) =
        some (.wrapped "failed to update user".toList err) ∧
      MongoUserRepository.Update user (.error err) ≠ none ∧
      MongoUserRepository.Update user (.error err) ≠ some (.domain ErrUserNotFound)) ∧
    (∀ result, result.MatchedCount = 0 →
      MongoUserRepository.Update user (.ok result) = some (.domain ErrUserNotFound)) ∧
    (∀ result, result.MatchedCount ≠ 0 → MongoUserRepository.Update user (.ok result) = none) ∧
    (∀ result, result.DeletedCount = 0 →
      MongoUserRepository.Delete id (.ok result) = some (.domain ErrUserNotFound)) ∧
    (∀ index, MongoUserRepository.Save user (some (.duplicateKey index)) =
      some (.domain ErrEmailExists)) := by
  refine ⟨?_, ?_, ?_, ?_, ?_, ?_⟩
  · intro err h
    simp only [MongoUserRepository.Update, h, if_true]
  · intro err h
    have hw : MongoUserRepository.Update user (.error err) =
        some (.wrapped "failed to update user".toList err) := by
      simp only [MongoUserRepository.Update, h, Bool.false_eq_true, if_false]
    rw [hw]
    refine ⟨rfl, ?_, ?_⟩
    · intro hc
      cases hc
    · intro hc
      cases hc
  · intro result h
    simp only [MongoUserRepository.Update, h, if_true]
  · intro result h
    simp only [MongoUserRepository.Update, h, if_false]
  · intro result h
    simp only [MongoUserRepository.Delete, h, if_true]
  · intro index
    rfl

/-- C17: the check-then-act race is real and unguarded on the volatile backend.  Two
`CreateUser` requests with the same email and different usernames run on the empty
repository; in the interleaving where both requests make their `ExistsByEmail` and
`ExistsByUsername` calls before either makes its `Save`, both requests succeed and the store
ends up holding two users with different IDs and the same Email.  (When the first call
runs to its end before the second starts, the second returns `ErrEmailExists`.) -/
theorem create_race_duplicates_email :
    aliceRequest.Email = aliceTwinRequest.Email ∧
    aliceRequest.Username ≠ aliceTwinRequest.Username ∧
    interleave excerptCaseTable raceStart [false, true, false, true, false, true] =
      { first := .returned
          (.ok ⟨"u1".toList, "Alice".toList, "a@b.com".toList, "alice".toList⟩),
        second := .returned
          (.ok ⟨"u2".toList, "Alice B".toList, "a@b.com".toList, "alice2".toList⟩),
        repo := ⟨[("u1".toList,
                    ⟨"u1".toList, "Alice".toList, "a@b.com".toList, "alice".toList⟩),
                  ("u2".toList,
                    ⟨"u2".toList, "Alice B".toList, "a@b.com".toList, "alice2".toList⟩)]⟩ } ∧
    (∃ e1 ∈ (interleave excerptCaseTable raceStart
        [false, true, false, true, false, true]).repo.users,
      ∃ e2 ∈ (interleave excerptCaseTable raceStart
        [false, true, false, true, false, true]).repo.users,
      e1.2.ID ≠ e2.2.ID ∧ e1.2.Email = e2.2.Email) ∧
    (interleave excerptCaseTable raceStart [false, false, false, true, true, true]).second =
      .returned (.error ErrEmailExists) := by
  refine ⟨by decide, by decide, by decide, ?_, by decide⟩
  decide

/-- Witness of C12: on the repository holding `a@b.com`, a request with an empty name, a
username that is too short and the email `A@b.com ` is answered `ErrEmailExists`, and the
store is unchanged. -/
theorem create_checks_in_order_witness :
    UserService.CreateUser excerptCaseTable aliceRepo "u2".toList
      ⟨"".toList, "A@b.com ".toList, "x".toList⟩ = (.error ErrEmailExists, aliceRepo) :=
  (create_checks_in_order excerptCaseTable aliceRepo "u2".toList
    ⟨"".toList, "A@b.com ".toList, "x".toList⟩).1
    ⟨("u1".toList, aliceUser), by decide, by decide⟩

/-- Witness of C13: `Save` files a second user with the email and username of the first;
both are then stored. -/
theorem save_is_upsert_witness :
    (aliceRepo.Save aliceDouble).1 = none ∧
    (aliceRepo.Save aliceDouble).2.users.lookup "u2".toList = some aliceDouble ∧
    (aliceRepo.Save aliceDouble).2.users.lookup "u1".toList = some aliceUser ∧
    aliceDouble.Email = aliceUser.Email ∧ aliceDouble.Username = aliceUser.Username :=
  ⟨(save_is_upsert aliceRepo aliceDouble).1, (save_is_upsert aliceRepo aliceDouble).2.1,
    ((save_is_upsert aliceRepo aliceDouble).2.2.1 "u1".toList (by decide)).trans (by decide),
    rfl, rfl⟩

/-- Witness of C14: `Update` of a user whose ID is not stored returns `ErrUserNotFound` and
does not insert; `Update` of the stored ID replaces the entry. -/
theorem update_requires_presence_witness :
    aliceRepo.Update aliceDouble = (some ErrUserNotFound, aliceRepo) ∧
    (aliceRepo.Update ⟨"u1".toList, "Al".toList, "al@b.com".toList, "al".toList⟩).2.users.lookup
      "u1".toList = some ⟨"u1".toList, "Al".toList, "al@b.com".toList, "al".toList⟩ :=
  ⟨(update_requires_presence excerptCaseTable aliceRepo aliceDouble).1 (by decide),
    ((update_requires_presence excerptCaseTable aliceRepo
      ⟨"u1".toList, "Al".toList, "al@b.com".toList, "al".toList⟩).2.1 (by decide)).2.1⟩

/-- Witness of C19: an update of the name alone stores the trimmed name under the same ID
and keeps the email and the username. -/
theorem mutators_change_only_their_field_witness :
    ∃ old new : User, aliceRepo.users.lookup "u1".toList = some old ∧
      (UserService.UpdateUser excerptCaseTable aliceRepo "u1".toList
        ⟨some " Alice A. ".toList, none, none⟩).2.users.lookup "u1".toList = some new ∧
      new.ID = "u1".toList ∧ new.Name = TrimSpace " Alice A. ".toList ∧
      new.Email = old.Email ∧ new.Username = old.Username :=
  have hwf : WellFormed aliceRepo :=
    WellFormed_of_reachable ⟨[.create "u1".toList aliceRequest], by decide, rfl⟩
  have h := (mutators_change_only_their_field excerptCaseTable).2.2.2 aliceRepo "u1".toList
    ⟨some " Alice A. ".toList, none, none⟩
    ⟨"u1".toList, "Alice A.".toList, "a@b.com".toList, "alice".toList⟩ hwf (by decide)
  match h with
  | ⟨old, new, h1, h2, _, h4, _, h6, h7, h8, _⟩ =>
    ⟨old, new, h1, h2, h4, h8 _ rfl, h6 rfl, h7 rfl⟩

/-- Witness of C20: the lookup of ` A@B.com ` finds the user stored with `a@b.com`. -/
theorem lookups_normalize_and_agree_witness :
    aliceRepo.ExistsByEmail excerptCaseTable " A@B.com ".toList = .ok true ∧
    ∃ u, aliceRepo.GetByEmail excerptCaseTable " A@B.com ".toList = .ok u :=
  ⟨by decide,
    (lookups_normalize_and_agree excerptCaseTable aliceRepo " A@B.com ".toList).1.2.2.1.mpr
      (by decide)⟩

/-- C21, evaluated at the failing input.  The population is the single user `u1` with the
normalized email `a@b.com` and username `alice`, held by both backends.  For the lookup
key `A@B.com` the volatile `ExistsByEmail` returns true and the persistent one false; for
the key ` alice` the volatile `ExistsByUsername` returns true and the persistent one
false: the persistent repository compares the key as typed, the volatile one normalizes
it first. -/
theorem backends_disagree_on_unnormalized_key :
    (∀ e ∈ aliceRepo.users,
      ToLower excerptCaseTable (TrimSpace e.2.Email) = e.2.Email ∧
      ToLower excerptCaseTable (TrimSpace e.2.Username) = e.2.Username) ∧
    documentsOf aliceRepo =
      [⟨"u1".toList, "Alice".toList, "a@b.com".toList, "alice".toList⟩] ∧
    aliceRepo.ExistsByEmail excerptCaseTable "A@B.com".toList = .ok true ∧
    MongoUserRepository.ExistsByEmail (documentsOf aliceRepo) "A@B.com".toList none =
      .ok false ∧
    aliceRepo.ExistsByUsername excerptCaseTable " alice".toList = .ok true ∧
    MongoUserRepository.ExistsByUsername (documentsOf aliceRepo) " alice".toList none =
      .ok false := by
  refine ⟨by decide, by decide, by decide, by decide, by decide, by decide⟩

end UserSvc
